import Mathlib

set_option maxRecDepth 200000

/-!
# Coke-oven cycle derivation engine: a shallow embedding

This file embeds the core of the coke-oven tracking system (src/models.rs,
src/system.rs, src/db.rs) in Lean and proves properties about it.

Modelling conventions:
* Strings are `List Char` (`Str`).  SQLite compares `TEXT` values by
  `memcmp` on UTF-8 bytes, which on code points coincides with
  code-point lexicographic order; `strLt` below models that order,
  and also the order used by Rust `&str` comparison.
* `f64` readings are modelled as exact rationals (`ℚ`); the code's
  floating-point rounding is abstracted away, the arithmetic structure
  (which sums, products and guarded divisions are performed) is kept.
* Timestamps: `chrono::NaiveDateTime` values are modelled as `Int`
  seconds since 0000-01-01 00:00:00 of the proleptic Gregorian
  calendar.  `signed_duration_since` is subtraction of those counts,
  which matches chrono for second-resolution values.
* The textual time parser models `chrono`'s `parse_from_str` for the
  three format strings used by `parse_time`, including chrono's
  lenient numeric matching (1–4 digit unsigned years, signed years
  with unbounded digits, 1–2 digit month/day/hour/minute/second
  fields, whitespace skipped before numeric fields and at `Space`
  format items, full-input consumption, calendar validation and
  leap-second seconds field up to 60).
* The SQLite tables are modelled as in-memory lists with the UNIQUE
  constraints of db.rs checked on insertion.
-/

/-! ## Strings and the SQLite/`memcmp` lexicographic order -/

abbrev Str := List Char

/-- Lexicographic (memcmp-style) strict order on strings, as used by
SQLite when comparing `TEXT` values. -/
def strLt : Str → Str → Bool
  | [], [] => false
  | [], _ :: _ => true
  | _ :: _, [] => false
  | a :: as, b :: bs => if a < b then true else if a = b then strLt as bs else false

/-- Non-strict variant: `s ≤ t` in the memcmp order. -/
def strLe (s t : Str) : Bool := strLt s t || s == t

theorem strLt_irrefl (s : Str) : strLt s s = false := by
  induction s with
  | nil => rfl
  | cons a as ih => simp [strLt, ih]

theorem strLt_asymm : ∀ s t : Str, strLt s t = true → strLt t s = false
  | [], [], h => by simp [strLt] at h
  | [], _ :: _, _ => rfl
  | _ :: _, [], h => by simp [strLt] at h
  | a :: as, b :: bs, h => by
    by_cases hab : a < b
    · have hba : ¬ b < a := fun h2 => absurd hab (not_lt_of_gt h2)
      have hne : ¬ b = a := fun h2 => absurd hab (by simp [h2])
      simp [strLt, hba, hne]
    · by_cases heq : a = b
      · subst heq
        simp only [strLt, if_neg hab, if_pos rfl] at h ⊢
        exact strLt_asymm as bs h
      · simp [strLt, hab, heq] at h

theorem strLt_nil_right (s : Str) : strLt s [] = false := by
  cases s <;> rfl

theorem strLt_trans : ∀ s t u : Str, strLt s t = true → strLt t u = true →
    strLt s u = true
  | _, t, [], _, h2 => by rw [strLt_nil_right t] at h2; cases h2
  | [], _, _ :: _, _, _ => rfl
  | _ :: _, [], _ :: _, h1, _ => by cases h1
  | a :: as, b :: bs, c :: cs, h1, h2 => by
    simp only [strLt] at h1 h2 ⊢
    by_cases hab : a < b
    · by_cases hbc : b < c
      · simp [lt_trans hab hbc]
      · by_cases hbc' : b = c
        · subst hbc'; simp [hab]
        · simp [hbc, hbc'] at h2
    · by_cases hab' : a = b
      · subst hab'
        simp only [if_neg hab, if_pos rfl] at h1
        by_cases hbc : a < c
        · simp [hbc]
        · by_cases hbc' : a = c
          · subst hbc'
            simp only [if_neg hbc, if_pos rfl] at h2 ⊢
            exact strLt_trans as bs cs h1 h2
          · simp [hbc, hbc'] at h2
      · simp [hab, hab'] at h1

theorem strLt_connex : ∀ s t : Str, strLt s t = false → strLt t s = false → s = t
  | [], [], _, _ => rfl
  | [], _ :: _, h1, _ => by cases h1
  | _ :: _, [], _, h2 => by cases h2
  | a :: as, b :: bs, h1, h2 => by
    simp only [strLt] at h1 h2
    by_cases hab : a < b
    · simp [hab] at h1
    · by_cases hba : b < a
      · simp [hba] at h2
      · have heq : a = b := le_antisymm (not_lt.mp hba) (not_lt.mp hab)
        subst heq
        simp only [if_neg hab, if_pos rfl] at h1 h2
        exact congrArg (a :: ·) (strLt_connex as bs h1 h2)

/-- `x ≤ m` propagation used for the SQL `ORDER BY time DESC LIMIT 1` model. -/
theorem strLt_false_trans {a b c : Str} (h1 : strLt b a = false)
    (h2 : strLt c b = false) : strLt c a = false := by
  cases ha : strLt c a with
  | false => rfl
  | true =>
    cases hbc : strLt b c with
    | true => rw [strLt_trans b c a hbc ha] at h1; cases h1
    | false =>
      have hbceq : b = c := strLt_connex b c hbc h2
      subst hbceq; rw [ha] at h1; cases h1

/-! ## Decimal digits, zero-padded rendering, chrono-style number scanning -/

/-- The decimal digit character for `n % 10`-style values. -/
def digitChar (n : Nat) : Char := Char.ofNat (48 + n % 10)

def isDigit (c : Char) : Bool := '0' ≤ c && c ≤ '9'

def digitVal (c : Char) : Nat := c.toNat - 48

/-- Rust's `char::is_whitespace`, the predicate behind chrono's
whitespace skipping (`str::trim_left`): the Unicode `White_Space` set. -/
def isWSpace (c : Char) : Bool :=
  c.toNat ∈ [0x9, 0xA, 0xB, 0xC, 0xD, 0x20, 0x85, 0xA0, 0x1680,
    0x2000, 0x2001, 0x2002, 0x2003, 0x2004, 0x2005, 0x2006, 0x2007,
    0x2008, 0x2009, 0x200A, 0x2028, 0x2029, 0x202F, 0x205F, 0x3000]

def trimL (s : Str) : Str := s.dropWhile isWSpace

/-- `n` written in decimal, zero-padded to exactly `w` characters
(most significant first); faithful for `n < 10 ^ w`. -/
def padDigits : Nat → Nat → Str
  | 0, _ => []
  | w + 1, n => digitChar (n / 10 ^ w) :: padDigits w (n % 10 ^ w)

/-- The value of a digit string, most significant first (`fold` as in
chrono's `scan::number`). -/
def valDigits (s : Str) : Nat := s.foldl (fun acc c => acc * 10 + digitVal c) 0

/-- chrono `scan::number(s, 1, max)`: consume between 1 and `max`
leading ASCII digits greedily, returning the value and the rest. -/
def scanNum (max : Nat) (s : Str) : Option (Nat × Str) :=
  if ((s.takeWhile isDigit).take max).isEmpty then none
  else some (valDigits ((s.takeWhile isDigit).take max),
    s.drop ((s.takeWhile isDigit).take max).length)

theorem digitChar_lt_iff : ∀ d1 < 10, ∀ d2 < 10,
    ((digitChar d1 < digitChar d2) ↔ d1 < d2) := by decide

theorem digitChar_eq_iff : ∀ d1 < 10, ∀ d2 < 10,
    ((digitChar d1 = digitChar d2) ↔ d1 = d2) := by decide

theorem isDigit_toNat {c : Char} (h : isDigit c = true) :
    48 ≤ c.toNat ∧ c.toNat ≤ 57 := by
  simp only [isDigit, Bool.and_eq_true, decide_eq_true_eq] at h
  obtain ⟨h1, h2⟩ := h
  exact ⟨h1, h2⟩

theorem digitVal_lt {c : Char} (h : isDigit c = true) : digitVal c < 10 := by
  have := isDigit_toNat h
  unfold digitVal
  omega

theorem isDigit_digitChar (d : Nat) : isDigit (digitChar d) = true := by
  have : d % 10 < 10 := Nat.mod_lt _ (by omega)
  unfold digitChar
  revert this
  generalize d % 10 = k
  intro hk
  interval_cases k <;> decide

theorem not_wspace_digitChar (d : Nat) : isWSpace (digitChar d) = false := by
  have : d % 10 < 10 := Nat.mod_lt _ (by omega)
  unfold digitChar
  revert this
  generalize d % 10 = k
  intro hk
  interval_cases k <;> decide

theorem digitVal_digitChar {d : Nat} (h : d < 10) : digitVal (digitChar d) = d := by
  revert h; revert d; decide

theorem padDigits_length (w n : Nat) : (padDigits w n).length = w := by
  induction w generalizing n with
  | zero => rfl
  | succ w ih => simp [padDigits, ih]

theorem padDigits_all_digits (w n : Nat) :
    ∀ c ∈ padDigits w n, isDigit c = true := by
  induction w generalizing n with
  | zero => intro c hc; cases hc
  | succ w ih =>
    intro c hc
    rcases hc with _ | ⟨_, hc⟩
    · exact isDigit_digitChar _
    · exact ih _ c hc

theorem valDigits_append_aux (l : Str) :
    ∀ acc : Nat, l.foldl (fun acc c => acc * 10 + digitVal c) acc =
      acc * 10 ^ l.length + valDigits l := by
  induction l with
  | nil => intro acc; simp [valDigits]
  | cons c cs ih =>
    intro acc
    show List.foldl _ (acc * 10 + digitVal c) cs = _
    rw [ih (acc * 10 + digitVal c)]
    have hv : valDigits (c :: cs) = (digitVal c) * 10 ^ cs.length + valDigits cs := by
      show List.foldl _ (0 * 10 + digitVal c) cs = _
      rw [ih (0 * 10 + digitVal c)]; ring_nf
    rw [hv]
    simp [List.length_cons, pow_succ]
    ring

theorem valDigits_cons (c : Char) (cs : Str) :
    valDigits (c :: cs) = digitVal c * 10 ^ cs.length + valDigits cs := by
  show List.foldl _ (0 * 10 + digitVal c) cs = _
  rw [valDigits_append_aux cs (0 * 10 + digitVal c)]; ring_nf

theorem valDigits_padDigits {w n : Nat} (h : n < 10 ^ w) :
    valDigits (padDigits w n) = n := by
  induction w generalizing n with
  | zero => interval_cases n; rfl
  | succ w ih =>
    have hlt : n % 10 ^ w < 10 ^ w := Nat.mod_lt _ (Nat.pos_pow_of_pos w (by omega))
    have hd : n / 10 ^ w < 10 := by
      rw [Nat.div_lt_iff_lt_mul (Nat.pos_pow_of_pos w (by omega))]
      calc n < 10 ^ (w + 1) := h
      _ = 10 * 10 ^ w := by ring
      _ ≤ _ := by omega
    rw [padDigits, valDigits_cons, padDigits_length, ih hlt,
      digitVal_digitChar hd]
    exact Nat.div_add_mod' n (10 ^ w)

theorem valDigits_lt (s : Str) (hs : ∀ c ∈ s, isDigit c = true) :
    valDigits s < 10 ^ s.length := by
  induction s with
  | nil => simp [valDigits]
  | cons c cs ih =>
    rw [valDigits_cons]
    have hc : digitVal c < 10 := digitVal_lt (hs c (List.mem_cons_self c cs))
    have htl := ih (fun x hx => hs x (List.mem_cons_of_mem c hx))
    calc digitVal c * 10 ^ cs.length + valDigits cs
        < digitVal c * 10 ^ cs.length + 10 ^ cs.length := by omega
      _ = (digitVal c + 1) * 10 ^ cs.length := by ring
      _ ≤ 10 * 10 ^ cs.length := Nat.mul_le_mul_right _ hc
      _ = 10 ^ (c :: cs).length := by rw [List.length_cons]; ring

/-- The continuation after a fixed-width digit block: empty, or starting
with a non-digit (so greedy scanning stops exactly at the block). -/
def noDigitHead : Str → Prop
  | [] => True
  | c :: _ => isDigit c = false

theorem takeWhile_digits_append {l r : Str} (hl : ∀ c ∈ l, isDigit c = true)
    (hr : noDigitHead r) : (l ++ r).takeWhile isDigit = l := by
  induction l with
  | nil =>
    cases r with
    | nil => rfl
    | cons c cs =>
      simp only [noDigitHead] at hr
      simp [List.takeWhile, hr]
  | cons c cs ih =>
    have hc := hl c (List.mem_cons_self c cs)
    simp only [List.cons_append, List.takeWhile, hc]
    show c :: List.takeWhile isDigit (cs ++ r) = c :: cs
    rw [ih (fun x hx => hl x (List.mem_cons_of_mem c hx))]

/-- chrono's greedy digit scan consumes a zero-padded block exactly. -/
theorem scanNum_pad {maxW w n : Nat} {r : Str} (hw : w ≤ maxW) (hw0 : 0 < w)
    (hn : n < 10 ^ w) (hr : noDigitHead r) :
    scanNum maxW (padDigits w n ++ r) = some (n, r) := by
  unfold scanNum
  rw [takeWhile_digits_append (padDigits_all_digits w n) hr]
  rw [List.take_of_length_le (by rw [padDigits_length]; exact hw)]
  have hne : (padDigits w n).isEmpty = false := by
    cases hpd : padDigits w n with
    | nil => have := padDigits_length w n; rw [hpd] at this; simp at this; omega
    | cons _ _ => rfl
  rw [hne]
  simp only [Bool.false_eq_true, if_false, valDigits_padDigits hn]
  rw [List.drop_left]

theorem digit_split_lt {B d1 m1 d2 m2 : Nat} (hm1 : m1 < B) (hm2 : m2 < B) :
    (d1 * B + m1 < d2 * B + m2) ↔ (d1 < d2 ∨ (d1 = d2 ∧ m1 < m2)) := by
  rcases Nat.lt_trichotomy d1 d2 with h | h | h
  · constructor
    · intro _; exact Or.inl h
    · intro _
      calc d1 * B + m1 < d1 * B + B := by omega
        _ = (d1 + 1) * B := by ring
        _ ≤ d2 * B := Nat.mul_le_mul_right _ h
        _ ≤ d2 * B + m2 := Nat.le_add_right _ _
  · subst h
    constructor
    · intro hlt
      exact Or.inr ⟨rfl, by omega⟩
    · rintro (h' | ⟨_, h'⟩)
      · omega
      · omega
  · constructor
    · intro hlt
      have : d2 * B + m2 < d1 * B + m1 := by
        calc d2 * B + m2 < d2 * B + B := by omega
          _ = (d2 + 1) * B := by ring
          _ ≤ d1 * B := Nat.mul_le_mul_right _ h
          _ ≤ d1 * B + m1 := Nat.le_add_right _ _
      omega
    · rintro (h' | ⟨h', _⟩) <;> omega

theorem digit_split_eq {B d1 m1 d2 m2 : Nat} (hm1 : m1 < B) (hm2 : m2 < B) :
    (d1 * B + m1 = d2 * B + m2) ↔ (d1 = d2 ∧ m1 = m2) := by
  constructor
  · intro h
    have h1 : ¬ d1 * B + m1 < d2 * B + m2 := by omega
    have h2 : ¬ d2 * B + m2 < d1 * B + m1 := by omega
    rw [digit_split_lt hm1 hm2] at h1
    rw [digit_split_lt hm2 hm1] at h2
    push_neg at h1 h2
    have hd : d1 = d2 := by omega
    subst hd
    exact ⟨rfl, by omega⟩
  · rintro ⟨rfl, rfl⟩; rfl

/-- Lexicographic comparison of two strings that both start with a
`w`-digit zero-padded block compares the block values first. -/
theorem strLt_pad_append {w n1 n2 : Nat} (h1 : n1 < 10 ^ w) (h2 : n2 < 10 ^ w)
    (r1 r2 : Str) :
    strLt (padDigits w n1 ++ r1) (padDigits w n2 ++ r2) = true ↔
      (n1 < n2 ∨ (n1 = n2 ∧ strLt r1 r2 = true)) := by
  induction w generalizing n1 n2 with
  | zero =>
    interval_cases n1
    interval_cases n2
    simp [padDigits]
  | succ w ih =>
    have hB : (0:Nat) < 10 ^ w := Nat.pos_pow_of_pos w (by omega)
    have hd1 : n1 / 10 ^ w < 10 := by
      rw [Nat.div_lt_iff_lt_mul hB]
      calc n1 < 10 ^ (w+1) := h1
        _ = 10 * 10 ^ w := by ring
        _ ≤ _ := by omega
    have hd2 : n2 / 10 ^ w < 10 := by
      rw [Nat.div_lt_iff_lt_mul hB]
      calc n2 < 10 ^ (w+1) := h2
        _ = 10 * 10 ^ w := by ring
        _ ≤ _ := by omega
    have hm1 : n1 % 10 ^ w < 10 ^ w := Nat.mod_lt _ hB
    have hm2 : n2 % 10 ^ w < 10 ^ w := Nat.mod_lt _ hB
    have e1 := Nat.div_add_mod' n1 (10 ^ w)
    have e2 := Nat.div_add_mod' n2 (10 ^ w)
    have hsplit : (n1 < n2) ↔
        (n1 / 10 ^ w < n2 / 10 ^ w ∨
          (n1 / 10 ^ w = n2 / 10 ^ w ∧ n1 % 10 ^ w < n2 % 10 ^ w)) := by
      conv_lhs => rw [← e1, ← e2]
      exact digit_split_lt hm1 hm2
    have heqsplit : (n1 = n2) ↔
        (n1 / 10 ^ w = n2 / 10 ^ w ∧ n1 % 10 ^ w = n2 % 10 ^ w) := by
      conv_lhs => rw [← e1, ← e2]
      exact digit_split_eq hm1 hm2
    show strLt (digitChar (n1 / 10 ^ w) :: (padDigits w (n1 % 10 ^ w) ++ r1))
        (digitChar (n2 / 10 ^ w) :: (padDigits w (n2 % 10 ^ w) ++ r2)) = true ↔ _
    rcases Nat.lt_trichotomy (n1 / 10 ^ w) (n2 / 10 ^ w) with hd | hd | hd
    · rw [strLt, if_pos ((digitChar_lt_iff _ hd1 _ hd2).mpr hd)]
      simp only [true_iff]
      exact Or.inl (hsplit.mpr (Or.inl hd))
    · have hclt : ¬ digitChar (n1 / 10 ^ w) < digitChar (n2 / 10 ^ w) := by
        rw [digitChar_lt_iff _ hd1 _ hd2, hd]
        exact lt_irrefl _
      have hceq : digitChar (n1 / 10 ^ w) = digitChar (n2 / 10 ^ w) :=
        congrArg digitChar hd
      rw [strLt, if_neg hclt, if_pos hceq, ih hm1 hm2]
      constructor
      · rintro (hm | ⟨hm, hr⟩)
        · exact Or.inl (hsplit.mpr (Or.inr ⟨hd, hm⟩))
        · exact Or.inr ⟨heqsplit.mpr ⟨hd, hm⟩, hr⟩
      · rintro (hn | ⟨hn, hr⟩)
        · rcases hsplit.mp hn with hdd | ⟨_, hm⟩
          · omega
          · exact Or.inl hm
        · exact Or.inr ⟨(heqsplit.mp hn).2, hr⟩
    · have hclt : ¬ digitChar (n1 / 10 ^ w) < digitChar (n2 / 10 ^ w) := by
        rw [digitChar_lt_iff _ hd1 _ hd2]
        omega
      have hcne : ¬ digitChar (n1 / 10 ^ w) = digitChar (n2 / 10 ^ w) := by
        rw [digitChar_eq_iff _ hd1 _ hd2]
        omega
      rw [strLt, if_neg hclt, if_neg hcne]
      simp only [Bool.false_eq_true, false_iff]
      rintro (hn | ⟨hn, _⟩)
      · rcases hsplit.mp hn with hdd | ⟨hdd, _⟩ <;> omega
      · have := (heqsplit.mp hn).1; omega

theorem padDigits_inj {w n1 n2 : Nat} (h1 : n1 < 10 ^ w) (h2 : n2 < 10 ^ w)
    (h : padDigits w n1 = padDigits w n2) : n1 = n2 := by
  have := valDigits_padDigits h1
  rw [h, valDigits_padDigits h2] at this
  omega

/-! ## Calendar arithmetic (model of `chrono::NaiveDate`/`NaiveDateTime`)

chrono represents calendar dates of the proleptic Gregorian calendar.
We model a `NaiveDateTime` by its signed count of seconds since
0000-01-01 00:00:00, computed from the broken-down fields; equality and
order of `NaiveDateTime` values coincide with those of the counts, and
`signed_duration_since(...).num_seconds()` is their difference.  The
leap-second second value 60 accepted by chrono's parser is mapped to
60 extra seconds, matching chrono's duration arithmetic. -/

/-- Gregorian leap-year rule (chrono `YearFlags::from_year`, which
reduces the year mod 400 first — i.e. Euclidean remainders). -/
def isLeapZ (y : Int) : Bool :=
  y.emod 4 == 0 && (y.emod 100 != 0 || y.emod 400 == 0)

/-- Length of month `m` (1-12). -/
def monthLen (leap : Bool) : Nat → Nat
  | 1 => 31
  | 2 => if leap then 29 else 28
  | 3 => 31
  | 4 => 30
  | 5 => 31
  | 6 => 30
  | 7 => 31
  | 8 => 31
  | 9 => 30
  | 10 => 31
  | 11 => 30
  | 12 => 31
  | _ => 0

/-- Days in the year strictly before month `m`. -/
def daysBefore (leap : Bool) : Nat → Nat
  | 0 => 0
  | m + 1 => daysBefore leap m + monthLen leap m

/-- Number of leap years `k` with `0 ≤ k < n`. -/
def leapCountN (n : Nat) : Nat :=
  (List.range n).countP fun k : Nat => isLeapZ ((k : Int))

/-- Signed count of leap years between year 0 (inclusive) and year `y`
(exclusive); negative years contribute negatively. -/
def leapCount : Int → Int
  | .ofNat n => (leapCountN n : Int)
  | .negSucc n =>
    -(((List.range (n + 1)).countP fun k : Nat => isLeapZ (-((k : Int) + 1)) : Nat) : Int)

def timeSecs (h mi s : Nat) : Nat := h * 3600 + mi * 60 + s

/-- Day number of `y-m-d` counted from 0000-01-01 = day 0. -/
def dayNumber (y : Int) (m d : Nat) : Int :=
  365 * y + leapCount y + (daysBefore (isLeapZ y) m : Int) + (d : Int) - 1

/-- The instant (seconds since 0000-01-01 00:00:00) of a broken-down
date-time. -/
def toSecs (y : Int) (m d h mi s : Nat) : Int :=
  dayNumber y m d * 86400 + (timeSecs h mi s : Int)

/-- The validity check performed by chrono when a `Parsed` is turned
into a `NaiveDateTime` (`from_ymd_opt` + `from_hms_opt`, seconds up to
60 for leap seconds, years limited to chrono's `MIN_YEAR..=MAX_YEAR`). -/
def validDT (y : Int) (m d h mi sec : Nat) : Bool :=
  (-262144 ≤ y && y ≤ 262143) && (1 ≤ m && m ≤ 12) &&
    (1 ≤ d && d ≤ monthLen (isLeapZ y) m) && (h ≤ 23) && (mi ≤ 59) && (sec ≤ 60)

/-! ## chrono `parse_from_str` for the three formats of `parse_time` -/

/-- A literal format item: match one exact character. -/
def expectChar (c : Char) : Str → Option Str
  | [] => none
  | x :: xs => if x = c then some xs else none

/-- chrono numeric `%Y` item: skip whitespace; an explicit sign allows
unboundedly many digits, otherwise at most 4 are taken. -/
def scanYear (s : Str) : Option (Int × Str) :=
  match trimL s with
  | [] => none
  | c :: rest =>
    if c = '-' then
      match scanNum rest.length rest with
      | some (v, r) => some (-(v : Int), r)
      | none => none
    else if c = '+' then
      match scanNum rest.length rest with
      | some (v, r) => some ((v : Int), r)
      | none => none
    else
      match scanNum 4 (c :: rest) with
      | some (v, r) => some ((v : Int), r)
      | none => none

/-- chrono two-digit numeric item (`%m`, `%d`, `%H`, `%M`, `%S`):
skip whitespace, then take 1–2 digits. -/
def scanField (s : Str) : Option (Nat × Str) := scanNum 2 (trimL s)

/-- The `%Y-%m-%d` prefix common to all three formats. -/
def parseYmd (s : Str) : Option (Int × Nat × Nat × Str) :=
  match scanYear s with
  | none => none
  | some (y, s1) =>
    match expectChar '-' s1 with
    | none => none
    | some s2 =>
      match scanField s2 with
      | none => none
      | some (m, s3) =>
        match expectChar '-' s3 with
        | none => none
        | some s4 =>
          match scanField s4 with
          | none => none
          | some (d, s5) => some (y, m, d, s5)

/-- `NaiveDateTime::parse_from_str(s, "%Y-%m-%d %H:%M:%S")`. -/
def chronoS (s : Str) : Option Int :=
  match parseYmd s with
  | none => none
  | some (y, m, d, s5) =>
    match scanField (trimL s5) with
    | none => none
    | some (h, s6) =>
      match expectChar ':' s6 with
      | none => none
      | some s7 =>
        match scanField s7 with
        | none => none
        | some (mi, s8) =>
          match expectChar ':' s8 with
          | none => none
          | some s9 =>
            match scanField s9 with
            | none => none
            | some (sec, s10) =>
              if s10.isEmpty && validDT y m d h mi sec then
                some (toSecs y m d h mi sec)
              else none

/-- `NaiveDateTime::parse_from_str(s, "%Y-%m-%d %H:%M")`: seconds
default to 0. -/
def chronoM (s : Str) : Option Int :=
  match parseYmd s with
  | none => none
  | some (y, m, d, s5) =>
    match scanField (trimL s5) with
    | none => none
    | some (h, s6) =>
      match expectChar ':' s6 with
      | none => none
      | some s7 =>
        match scanField s7 with
        | none => none
        | some (mi, s8) =>
          if s8.isEmpty && validDT y m d h mi 0 then
            some (toSecs y m d h mi 0)
          else none

/-- `NaiveDate::parse_from_str(s, "%Y-%m-%d")` followed by
`date.and_hms_opt(0, 0, 0)`: time of day defaults to midnight. -/
def chronoD (s : Str) : Option Int :=
  match parseYmd s with
  | none => none
  | some (y, m, d, s5) =>
    if s5.isEmpty && validDT y m d 0 0 0 then
      some (toSecs y m d 0 0 0)
    else none

/-- The error taxonomy of the system: the distinct error strings
returned by record ingestion, plus the `rusqlite`-level error used
inside cycle calculation. -/
inductive SysErr where
  | invalidOven
  | invalidChamber
  | invalidOperationKind
  | invalidTimeFormat
  | duplicateRecord
  | queryFailure
deriving DecidableEq

/-- `models::parse_time`: try `%Y-%m-%d %H:%M:%S`, then
`%Y-%m-%d %H:%M`, then `%Y-%m-%d`; first full match wins, otherwise
the invalid-time-format error. -/
def parse_time (s : Str) : Except SysErr Int :=
  match chronoS s with
  | some dt => .ok dt
  | none =>
    match chronoM s with
    | some dt => .ok dt
    | none =>
      match chronoD s with
      | some dt => .ok dt
      | none => .error .invalidTimeFormat

/-! ## Rendering of durations (`minutes_to_hhmm`) -/

def numDigitsAux : Nat → Nat → Nat
  | 0, _ => 1
  | fuel + 1, n => if n < 10 then 1 else numDigitsAux fuel (n / 10) + 1

/-- Number of decimal digits of `n` (correct below `10 ^ 15`, far above
the `i32` range of the code). -/
def numDigits (n : Nat) : Nat := numDigitsAux 15 n

/-- Rust `format!("{:02}", z)` for an `i32`: at least two output
characters, zero-padding inserted after the sign. -/
def intStr02 (z : Int) : Str :=
  if z < 0 then '-' :: padDigits (Nat.max 1 (numDigits z.natAbs)) z.natAbs
  else padDigits (Nat.max 2 (numDigits z.natAbs)) z.natAbs

/-- `system::minutes_to_hhmm`: `format!("{:02}:{:02}", minutes / 60,
minutes % 60)` with Rust's truncating `i32` division and remainder. -/
def minutes_to_hhmm (minutes : Int) : Str :=
  intStr02 (minutes.tdiv 60) ++ ':' :: intStr02 (minutes.tmod 60)

/-- Wrapping conversion of an `i64` value into `i32` (`as i32`). -/
def wrap32 (z : Int) : Int := (z + 2147483648).emod 4294967296 - 2147483648

/-! ## Data model: the three tables of db.rs, plus parsed records -/

/-- Row of `temperature_records` (`UNIQUE(coke_oven, time)`); the time
is the caller's verbatim text. -/
structure TempRow where
  oven : Int
  time : Str
  machine_side : ℚ
  coke_side : ℚ
deriving DecidableEq

/-- Row of `operation_records` (`UNIQUE(coke_oven, chamber, time)`). -/
structure OpRow where
  oven : Int
  chamber : Str
  op_type : Str
  time : Str
deriving DecidableEq

/-- Row of `coking_cycles` (`UNIQUE(coke_oven, chamber, push_time)`). -/
structure CycleRow where
  oven : Int
  chamber : Str
  loading_time : Str
  push_time : Str
  duration_hhmm : Str
  avg_temp_machine : Option ℚ
  avg_temp_coke : Option ℚ
deriving DecidableEq

/-- The durable store: the three append-only tables. -/
structure SysState where
  temps : List TempRow
  ops : List OpRow
  cycles : List CycleRow
deriving DecidableEq

/-- `models::TempRecord`: a temperature row with its time parsed. -/
structure TempRecord where
  time : Int
  machine_side : ℚ
  coke_side : ℚ
deriving DecidableEq

/-- `models::TimeTempPoint`. -/
structure TimeTempPoint where
  time : Int
  machine : ℚ
  coke : ℚ
deriving DecidableEq

/-! ## `models::interpolate_temp` -/

def interpolate_temp (prev next : Option TempRecord) (target : Int) :
    Option (ℚ × ℚ) :=
  match prev, next with
  | some prev_rec, some next_rec =>
    let total_secs : ℚ := ((next_rec.time - prev_rec.time : Int) : ℚ)
    if total_secs = 0 then some (prev_rec.machine_side, prev_rec.coke_side)
    else
      let secs_from_prev : ℚ := ((target - prev_rec.time : Int) : ℚ)
      let ratio := secs_from_prev / total_secs
      some (prev_rec.machine_side +
              (next_rec.machine_side - prev_rec.machine_side) * ratio,
            prev_rec.coke_side + (next_rec.coke_side - prev_rec.coke_side) * ratio)
  | some prev_res, none => some (prev_res.machine_side, prev_res.coke_side)
  | none, some next_rec => some (next_rec.machine_side, next_rec.coke_side)
  | none, none => none

/-! ## `system::calculate_integral` -/

/-- One loop iteration of `calculate_integral` for a non-degenerate
adjacent pair: trapezoid areas and duration accumulate (duration in
minutes: seconds / 60). -/
def integralStep (acc : ℚ × ℚ × ℚ) (p1 p2 : TimeTempPoint) : ℚ × ℚ × ℚ :=
  (acc.1 + (p1.machine + p2.machine) * (((p2.time - p1.time : Int) : ℚ) / 60) / 2,
   acc.2.1 + (p1.coke + p2.coke) * (((p2.time - p1.time : Int) : ℚ) / 60) / 2,
   acc.2.2 + ((p2.time - p1.time : Int) : ℚ) / 60)

def integralGo (acc : ℚ × ℚ × ℚ) : List TimeTempPoint → ℚ × ℚ × ℚ
  | p1 :: p2 :: rest =>
    if p1.time = p2.time then integralGo acc (p2 :: rest)
    else integralGo (integralStep acc p1 p2) (p2 :: rest)
  | _ => acc

/-- `calculate_integral`: fold over adjacent pairs, skipping pairs with
identical instants. -/
def calculate_integral (points : List TimeTempPoint) : ℚ × ℚ × ℚ :=
  integralGo (0, 0, 0) points

/-! ## Static oven configuration -/

/-- Modelled from the spec: `src/oven.rs` (`initialize_ovens` and
`CokeOven::is_valid_chamber`) is not among the provided source files.
Per spec §3 an oven is "identified by a small positive integer", created
once from static configuration, and "owns a fixed set of valid chamber
identifiers (strings, e.g. "1#".."50#")"; the tests treat ovens 1–3 as
configured (oven 4 invalid) and chamber "48#" as valid ("999#" invalid).
We model three ovens, each owning chambers "1#".."50#". -/
def chamberLabel (n : Nat) : Str :=
  (if n < 10 then [digitChar n] else [digitChar (n / 10), digitChar (n % 10)]) ++ ['#']

/-- Modelled from the spec: the chamber label set of every configured oven. -/
def validChambers : List Str := (List.range 50).map fun i => chamberLabel (i + 1)

/-- Modelled from the spec: the configured oven identifiers. -/
def ovenIds : List Int := [1, 2, 3]

/-- Modelled from the spec: `CokeOven::is_valid_chamber` as membership
in the oven's fixed chamber-label set. -/
def is_valid_chamber (chamber : Str) : Bool := validChambers.contains chamber

def strLOAD : Str := "LOAD".data

def strPUSH : Str := "PUSH".data

/-! ## Store queries (Temperature Series Accessor, Cycle Matcher query) -/

/-- Pick the row preferred by `better` (the SQL `ORDER BY … LIMIT 1`). -/
def pickRow (better : Str → Str → Bool) (l : List TempRow) : Option TempRow :=
  l.foldl (fun acc r =>
    match acc with
    | none => some r
    | some m => if better r.time m.time then some r else some m) none

/-- The greatest string of a list under `strLt`
(SQL `ORDER BY time DESC LIMIT 1` over a selected `time` column). -/
def maxTimeStr (l : List Str) : Option Str :=
  l.foldl (fun acc t =>
    match acc with
    | none => some t
    | some m => if strLt m t then some t else some m) none

/-- `system::get_nearest_temp_record`: nearest sample at or before
(`time <= ?2 ORDER BY time DESC`), or strictly after
(`time > ?2 ORDER BY time ASC`); the row's time text is parsed, a parse
failure surfaces as a query error. -/
def get_nearest_temp_record (st : SysState) (coke_oven : Int) (time : Str)
    (before : Bool) : Except SysErr (Option TempRecord) :=
  match pickRow (if before then fun a b => strLt b a else fun a b => strLt a b)
      (st.temps.filter fun r => r.oven == coke_oven &&
        (if before then strLe r.time time else strLt time r.time)) with
  | none => .ok none
  | some r =>
    match parse_time r.time with
    | .error _ => .error .queryFailure
    | .ok dt => .ok (some ⟨dt, r.machine_side, r.coke_side⟩)

/-- Insertion into an ascending-by-time list (model of `ORDER BY time ASC`). -/
def insertByTime (r : TempRow) : List TempRow → List TempRow
  | [] => [r]
  | x :: xs => if strLe r.time x.time then r :: x :: xs else x :: insertByTime r xs

def sortByTime (l : List TempRow) : List TempRow := l.foldr insertByTime []

def parseRows : List TempRow → Except SysErr (List TempRecord)
  | [] => .ok []
  | r :: rs =>
    match parse_time r.time with
    | .error _ => .error .queryFailure
    | .ok dt =>
      match parseRows rs with
      | .error e => .error e
      | .ok ts => .ok (⟨dt, r.machine_side, r.coke_side⟩ :: ts)

/-- `system::get_temp_records_in_range`: samples with
`start < time < end` (string comparison), ascending by time text. -/
def get_temp_records_in_range (st : SysState) (coke_oven : Int)
    (start stop : Str) : Except SysErr (List TempRecord) :=
  parseRows (sortByTime (st.temps.filter fun r =>
    r.oven == coke_oven && strLt start r.time && strLt r.time stop))

/-! ## `system::calculate_avg_temperature` and the cycle matcher -/

/-- The tail of `calculate_avg_temperature` (src/system.rs lines
193-203): integrate the assembled point sequence `p0 :: rest` (`p0` is
`points[0]`, the interpolated start boundary point) and divide, unless
the total duration is zero, in which case `points[0]`'s readings are
returned unchanged. -/
def avgFromPoints (p0 : TimeTempPoint) (rest : List TimeTempPoint) : ℚ × ℚ :=
  match calculate_integral (p0 :: rest) with
  | (total_machine_area, total_coke_area, total_duration) =>
    if total_duration = 0 then (p0.machine, p0.coke)
    else (total_machine_area / total_duration, total_coke_area / total_duration)

def calculate_avg_temperature (st : SysState) (coke_oven : Int)
    (start_time end_time : Str) : Except SysErr (ℚ × ℚ) :=
  match parse_time start_time with
  | .error _ => .error .queryFailure
  | .ok start_dt =>
  match parse_time end_time with
  | .error _ => .error .queryFailure
  | .ok end_dt =>
  match get_nearest_temp_record st coke_oven start_time true with
  | .error e => .error e
  | .ok prev_start =>
  match get_nearest_temp_record st coke_oven start_time false with
  | .error e => .error e
  | .ok next_start =>
  match get_nearest_temp_record st coke_oven end_time true with
  | .error e => .error e
  | .ok prev_end =>
  match get_nearest_temp_record st coke_oven end_time false with
  | .error e => .error e
  | .ok next_end =>
  match get_temp_records_in_range st coke_oven start_time end_time with
  | .error e => .error e
  | .ok middle_records =>
  match interpolate_temp prev_start next_start start_dt with
  | none => .error .queryFailure
  | some start_temp =>
  match interpolate_temp prev_end next_end end_dt with
  | none => .error .queryFailure
  | some end_temp =>
  .ok (avgFromPoints ⟨start_dt, start_temp.1, start_temp.2⟩
    ((middle_records.map fun rec => ⟨rec.time, rec.machine_side, rec.coke_side⟩) ++
      [⟨end_dt, end_temp.1, end_temp.2⟩]))

/-- The `SELECT time FROM operation_records … operation_type = 'LOAD'
AND time < ?3 ORDER BY time DESC LIMIT 1` query of
`try_calculate_coking_cycle` (string comparison throughout). -/
def latestLoadBefore (st : SysState) (coke_oven : Int) (chamber : Str)
    (push_time : Str) : Option Str :=
  maxTimeStr ((st.ops.filter fun r => r.oven == coke_oven &&
    r.chamber == chamber && r.op_type == strLOAD && strLt r.time push_time).map
    (fun r => r.time))

/-- The `match` of src/system.rs lines 115-122: a successful average
fills both columns, a failure is logged and degrades both to NULL. -/
def avgCols (st : SysState) (coke_oven : Int) (loading_time push_time : Str) :
    Option ℚ × Option ℚ :=
  match calculate_avg_temperature st coke_oven loading_time push_time with
  | .ok mc => (some mc.1, some mc.2)
  | .error _ => (none, none)

def try_calculate_coking_cycle (st : SysState) (coke_oven : Int)
    (chamber : Str) (push_time : Str) : Except SysErr SysState :=
  match latestLoadBefore st coke_oven chamber push_time with
  | none => .ok st
  | some loading_time =>
    match parse_time loading_time with
    | .error _ => .error .queryFailure
    | .ok load_dt =>
    match parse_time push_time with
    | .error _ => .error .queryFailure
    | .ok push_dt =>
      if st.cycles.any fun r => r.oven == coke_oven && r.chamber == chamber &&
          r.push_time == push_time then .error .duplicateRecord
      else .ok { st with cycles := st.cycles ++
        [⟨coke_oven, chamber, loading_time, push_time,
          minutes_to_hhmm (wrap32 ((push_dt - load_dt).tdiv 60)),
          (avgCols st coke_oven loading_time push_time).1,
          (avgCols st coke_oven loading_time push_time).2⟩] }

/-! ## Record ingestion (`record_temperature`, `record_operation`) -/

def record_temperature (st : SysState) (coke_oven : Int) (time : Str)
    (machine_temp coke_temp : ℚ) : Except SysErr SysState :=
  if ovenIds.contains coke_oven = false then .error .invalidOven
  else
    match parse_time time with
    | .error e => .error e
    | .ok _ =>
      if st.temps.any fun r => r.oven == coke_oven && r.time == time then
        .error .duplicateRecord
      else .ok { st with temps := st.temps ++
        [⟨coke_oven, time, machine_temp, coke_temp⟩] }

def record_operation (st : SysState) (coke_oven : Int) (chamber : Str)
    (op_type : Str) (time : Str) : Except SysErr SysState :=
  if ovenIds.contains coke_oven = false then .error .invalidOven
  else if is_valid_chamber chamber = false then .error .invalidChamber
  else if (op_type == strLOAD || op_type == strPUSH) = false then
    .error .invalidOperationKind
  else
    match parse_time time with
    | .error e => .error e
    | .ok _ =>
      if st.ops.any fun r => r.oven == coke_oven && r.chamber == chamber &&
          r.time == time then .error .duplicateRecord
      else
        let st1 : SysState := { st with ops := st.ops ++
          [⟨coke_oven, chamber, op_type, time⟩] }
        if op_type == strPUSH then
          try_calculate_coking_cycle st1 coke_oven chamber time
        else .ok st1

/-- The empty store produced by `initialize_db` on a fresh database. -/
def initState : SysState := ⟨[], [], []⟩

/-! ## Properties of the `ORDER BY … LIMIT 1` selections -/

theorem maxTimeStr_go_some (l : List Str) (m : Str) :
    ∃ t, List.foldl (fun acc t =>
      match acc with
      | none => some t
      | some m => if strLt m t then some t else some m) (some m) l = some t := by
  induction l generalizing m with
  | nil => exact ⟨m, rfl⟩
  | cons x xs ih =>
    rw [List.foldl_cons]
    by_cases h : strLt m x
    · simpa [h] using ih x
    · simpa [h] using ih m

theorem maxTimeStr_none_iff (l : List Str) : maxTimeStr l = none ↔ l = [] := by
  constructor
  · intro h
    cases l with
    | nil => rfl
    | cons x xs =>
      unfold maxTimeStr at h
      rw [List.foldl_cons] at h
      obtain ⟨t, ht⟩ := maxTimeStr_go_some xs x
      simp only [ht] at h
      cases h
  · rintro rfl; rfl

theorem maxTimeStr_go_mem (l : List Str) :
    ∀ (m t : Str), List.foldl (fun acc t =>
      match acc with
      | none => some t
      | some m => if strLt m t then some t else some m) (some m) l = some t →
      t = m ∨ t ∈ l := by
  induction l with
  | nil =>
    intro m t h
    simp only [List.foldl_nil, Option.some.injEq] at h
    exact Or.inl h.symm
  | cons x xs ih =>
    intro m t h
    rw [List.foldl_cons] at h
    by_cases hx : strLt m x
    · simp only [hx, if_pos] at h
      rcases ih x t h with rfl | hmem
      · exact Or.inr (List.mem_cons_self _ _)
      · exact Or.inr (List.mem_cons_of_mem x hmem)
    · simp only [hx] at h
      rcases ih m t h with rfl | hmem
      · exact Or.inl rfl
      · exact Or.inr (List.mem_cons_of_mem x hmem)

theorem maxTimeStr_mem {l : List Str} {t : Str} (h : maxTimeStr l = some t) :
    t ∈ l := by
  cases l with
  | nil => cases h
  | cons x xs =>
    unfold maxTimeStr at h
    rw [List.foldl_cons] at h
    rcases maxTimeStr_go_mem xs x t h with rfl | hmem
    · exact List.mem_cons_self _ _
    · exact List.mem_cons_of_mem x hmem

theorem maxTimeStr_go_ub (l : List Str) :
    ∀ (m t : Str), List.foldl (fun acc t =>
      match acc with
      | none => some t
      | some m => if strLt m t then some t else some m) (some m) l = some t →
      strLt t m = false ∧ ∀ x ∈ l, strLt t x = false := by
  induction l with
  | nil =>
    intro m t h
    simp only [List.foldl_nil, Option.some.injEq] at h
    subst h
    exact ⟨strLt_irrefl _, fun x hx => absurd hx (List.not_mem_nil x)⟩
  | cons x xs ih =>
    intro m t h
    rw [List.foldl_cons] at h
    by_cases hx : strLt m x
    · simp only [hx, if_pos] at h
      obtain ⟨h1, h2⟩ := ih x t h
      refine ⟨?_, ?_⟩
      · -- m < x and t is max of x :: xs, so ¬ t < m
        cases htm : strLt t m with
        | false => rfl
        | true =>
          have := strLt_trans t m x htm hx
          rw [this] at h1
          cases h1
      · intro y hy
        rcases List.mem_cons.mp hy with rfl | hmem
        · exact h1
        · exact h2 y hmem
    · simp only [hx] at h
      obtain ⟨h1, h2⟩ := ih m t h
      refine ⟨h1, ?_⟩
      intro y hy
      rcases List.mem_cons.mp hy with rfl | hmem
      · -- ¬ m < y and ¬ t < m, so ¬ t < y
        have hmx : strLt m y = false := by
          rw [← Bool.not_eq_true]; exact hx
        exact strLt_false_trans hmx h1
      · exact h2 y hmem

theorem maxTimeStr_ub {l : List Str} {t : Str} (h : maxTimeStr l = some t) :
    ∀ x ∈ l, strLt t x = false := by
  cases l with
  | nil => intro x hx; cases hx
  | cons x xs =>
    unfold maxTimeStr at h
    rw [List.foldl_cons] at h
    obtain ⟨h1, h2⟩ := maxTimeStr_go_ub xs x t h
    intro y hy
    rcases List.mem_cons.mp hy with rfl | hmem
    · exact h1
    · exact h2 y hmem

/-! ## Monotonicity of the instant encoding on calendar fields -/

theorem leapCountN_succ (n : Nat) :
    leapCountN (n + 1) = leapCountN n + (if isLeapZ (n : Int) then 1 else 0) := by
  unfold leapCountN
  rw [List.range_succ, List.countP_append]
  by_cases h : isLeapZ (n : Int) <;> simp [List.countP_cons, h]

theorem leapCountN_mono {n1 n2 : Nat} (h : n1 ≤ n2) :
    leapCountN n1 ≤ leapCountN n2 := by
  induction n2 with
  | zero =>
    have : n1 = 0 := by omega
    subst this
    exact le_refl _
  | succ k ih =>
    rcases Nat.lt_or_ge n1 (k + 1) with hl | hg
    · have h1 : n1 ≤ k := by omega
      have := ih h1
      rw [leapCountN_succ]
      by_cases hk : isLeapZ (k : Int) <;> simp [hk] <;> omega
    · have : n1 = k + 1 := by omega
      subst this
      exact le_refl _

theorem leapCount_ofNat (n : Nat) : leapCount (n : Int) = (leapCountN n : Int) := rfl

theorem daysBefore_succ (leap : Bool) (m : Nat) :
    daysBefore leap (m + 1) = daysBefore leap m + monthLen leap m := rfl

theorem daysBefore_mono (leap : Bool) {m1 m2 : Nat} (h : m1 ≤ m2) :
    daysBefore leap m1 ≤ daysBefore leap m2 := by
  induction m2 with
  | zero =>
    have : m1 = 0 := by omega
    subst this
    exact le_refl _
  | succ k ih =>
    rcases Nat.lt_or_ge m1 (k + 1) with hl | hg
    · have h1 : m1 ≤ k := by omega
      calc daysBefore leap m1 ≤ daysBefore leap k := ih h1
        _ ≤ daysBefore leap (k + 1) := by rw [daysBefore_succ]; omega
    · have : m1 = k + 1 := by omega
      subst this
      exact le_refl _

theorem daysBefore_13 (leap : Bool) :
    daysBefore leap 13 = 365 + (if leap then 1 else 0) := by
  cases leap <;> rfl

/-- Day of year is at most the year length: for a valid month/day pair,
`daysBefore m + d ≤ daysBefore 13`. -/
theorem dayOfYear_le (leap : Bool) {m d : Nat} (hm : m ≤ 12)
    (hd : d ≤ monthLen leap m) : daysBefore leap m + d ≤ daysBefore leap 13 := by
  calc daysBefore leap m + d ≤ daysBefore leap m + monthLen leap m := by omega
    _ = daysBefore leap (m + 1) := (daysBefore_succ _ _).symm
    _ ≤ daysBefore leap 13 := daysBefore_mono leap (by omega)

/-- `dayNumber` on a natural-number year, as a natural number. -/
theorem dayNumber_ofNat (y : Nat) (m d : Nat) (hd : 1 ≤ d) :
    dayNumber (y : Int) m d =
      ((365 * y + leapCountN y + daysBefore (isLeapZ (y : Int)) m + d - 1 : Nat) : Int) := by
  unfold dayNumber
  rw [leapCount_ofNat]
  omega

/-- Within one year, lexicographic (month, day) order gives day-number
order, for valid pairs. -/
theorem dayNumber_lt_same_year (y : Int) {m1 d1 m2 d2 : Nat}
    (hd2 : 1 ≤ d2) (hm2 : m2 ≤ 13)
    (hdm1 : d1 ≤ monthLen (isLeapZ y) m1)
    (hlex : m1 < m2 ∨ (m1 = m2 ∧ d1 < d2)) :
    dayNumber y m1 d1 < dayNumber y m2 d2 := by
  unfold dayNumber
  have key : daysBefore (isLeapZ y) m1 + d1 < daysBefore (isLeapZ y) m2 + d2 := by
    rcases hlex with hm | ⟨rfl, hd⟩
    · calc daysBefore (isLeapZ y) m1 + d1
          ≤ daysBefore (isLeapZ y) m1 + monthLen (isLeapZ y) m1 := by omega
        _ = daysBefore (isLeapZ y) (m1 + 1) := (daysBefore_succ _ _).symm
        _ ≤ daysBefore (isLeapZ y) m2 := daysBefore_mono _ (by omega)
        _ < daysBefore (isLeapZ y) m2 + d2 := by omega
    · omega
  omega

/-- Going to the first day of the next year strictly increases the day
number, whatever valid day we start from. -/
theorem dayNumber_year_succ {y m1 d1 : Nat} (hm1 : m1 ≤ 12)
    (hdm1 : d1 ≤ monthLen (isLeapZ (y : Int)) m1) :
    dayNumber (y : Int) m1 d1 < dayNumber ((y + 1 : Nat) : Int) 1 1 := by
  have hcast : ((y + 1 : Nat) : Int) = (y : Int) + 1 := by push_cast; ring
  unfold dayNumber
  rw [hcast, leapCount_ofNat]
  have h1 : leapCount ((y : Int) + 1) = (leapCountN (y + 1) : Int) := by
    have : ((y : Int) + 1) = ((y + 1 : Nat) : Int) := by push_cast; ring
    rw [this, leapCount_ofNat]
  rw [h1, leapCountN_succ]
  have h2 : daysBefore (isLeapZ (y : Int)) m1 + d1 ≤
      daysBefore (isLeapZ (y : Int)) 13 := dayOfYear_le _ hm1 hdm1
  rw [daysBefore_13] at h2
  have h3 : (daysBefore (isLeapZ ((y : Int) + 1)) 1 : Nat) = 0 := rfl
  rw [h3]
  cases hy : isLeapZ (y : Int) <;> simp [hy] at h2 ⊢ <;> omega

/-- The first day of the year is monotone in the year. -/
theorem dayNumber_first_mono {y1 y2 : Nat} (h : y1 ≤ y2) :
    dayNumber (y1 : Int) 1 1 ≤ dayNumber (y2 : Int) 1 1 := by
  unfold dayNumber
  rw [leapCount_ofNat, leapCount_ofNat]
  have := leapCountN_mono h
  have h1 : (daysBefore (isLeapZ (y1 : Int)) 1 : Nat) = 0 := rfl
  have h2 : (daysBefore (isLeapZ (y2 : Int)) 1 : Nat) = 0 := rfl
  rw [h1, h2]
  push_cast
  omega

/-- The first day of the year is the least day number of the year. -/
theorem dayNumber_first_le (y : Int) {m d : Nat} (hm : 1 ≤ m) (hd : 1 ≤ d) :
    dayNumber y 1 1 ≤ dayNumber y m d := by
  unfold dayNumber
  have h1 : (daysBefore (isLeapZ y) 1 : Nat) = 0 := rfl
  rw [h1]
  have h2 : daysBefore (isLeapZ y) 1 ≤ daysBefore (isLeapZ y) m := daysBefore_mono _ hm
  rw [h1] at h2
  omega

/-- Day numbers are strictly monotone across years (natural-number
years, valid fields). -/
theorem dayNumber_lt_year_lt {y1 y2 m1 d1 m2 d2 : Nat} (hy : y1 < y2)
    (hm1 : m1 ≤ 12) (hdm1 : d1 ≤ monthLen (isLeapZ (y1 : Int)) m1)
    (hm2 : 1 ≤ m2) (hd2 : 1 ≤ d2) :
    dayNumber (y1 : Int) m1 d1 < dayNumber (y2 : Int) m2 d2 := by
  calc dayNumber (y1 : Int) m1 d1
      < dayNumber ((y1 + 1 : Nat) : Int) 1 1 := dayNumber_year_succ hm1 hdm1
    _ ≤ dayNumber (y2 : Int) 1 1 := dayNumber_first_mono (by omega)
    _ ≤ dayNumber (y2 : Int) m2 d2 := dayNumber_first_le _ hm2 hd2

/-! ## Strict zero-padded shapes (the spec's `YYYY-MM-DD [HH:MM[:SS]]`) -/

/-- Broken-down date-time fields for a strictly-shaped time text. -/
structure DT where
  year : Nat
  month : Nat
  day : Nat
  hour : Nat
  minute : Nat
  second : Nat
deriving DecidableEq

/-- The instant denoted by the fields. -/
def DT.instant (f : DT) : Int :=
  toSecs (f.year : Int) f.month f.day f.hour f.minute f.second

/-- Validity of the fields for the strict shapes: a real calendar date
with a 4-digit year and a time of day with seconds below 60. -/
def ValidDT (f : DT) : Prop :=
  f.year ≤ 9999 ∧ 1 ≤ f.month ∧ f.month ≤ 12 ∧ 1 ≤ f.day ∧
    f.day ≤ monthLen (isLeapZ (f.year : Int)) f.month ∧
    f.hour ≤ 23 ∧ f.minute ≤ 59 ∧ f.second ≤ 59

instance (f : DT) : Decidable (ValidDT f) := by
  unfold ValidDT
  infer_instance

/-- Lexicographic order on the field tuples. -/
def DT.lexLt (f1 f2 : DT) : Prop :=
  f1.year < f2.year ∨ (f1.year = f2.year ∧
    (f1.month < f2.month ∨ (f1.month = f2.month ∧
      (f1.day < f2.day ∨ (f1.day = f2.day ∧
        (f1.hour < f2.hour ∨ (f1.hour = f2.hour ∧
          (f1.minute < f2.minute ∨ (f1.minute = f2.minute ∧
            f1.second < f2.second)))))))))

/-- `YYYY-MM-DD` rendering. -/
def renderD (f : DT) : Str :=
  padDigits 4 f.year ++ '-' :: (padDigits 2 f.month ++ '-' :: padDigits 2 f.day)

/-- `YYYY-MM-DD HH:MM` rendering. -/
def renderM (f : DT) : Str :=
  padDigits 4 f.year ++ '-' :: (padDigits 2 f.month ++ '-' ::
    (padDigits 2 f.day ++ ' ' :: (padDigits 2 f.hour ++ ':' :: padDigits 2 f.minute)))

/-- `YYYY-MM-DD HH:MM:SS` rendering. -/
def renderS (f : DT) : Str :=
  padDigits 4 f.year ++ '-' :: (padDigits 2 f.month ++ '-' ::
    (padDigits 2 f.day ++ ' ' :: (padDigits 2 f.hour ++ ':' ::
      (padDigits 2 f.minute ++ ':' :: padDigits 2 f.second))))

/-- The three textual shapes accepted by the spec's description of the
Time Parser. -/
inductive TimeShape where
  | withSeconds
  | noSeconds
  | dateOnly
deriving DecidableEq

def renderShape : TimeShape → DT → Str
  | .withSeconds, f => renderS f
  | .noSeconds, f => renderM f
  | .dateOnly, f => renderD f

/-- Zero the fields a shape omits: the parse of the rendered text. -/
def canonShape : TimeShape → DT → DT
  | .withSeconds, f => f
  | .noSeconds, f => { f with second := 0 }
  | .dateOnly, f => { f with hour := 0, minute := 0, second := 0 }

/-- Strict monotonicity of the instant in the field tuple. -/
theorem instant_lt_of_lexLt {f1 f2 : DT} (hv1 : ValidDT f1) (hv2 : ValidDT f2)
    (h : DT.lexLt f1 f2) : f1.instant < f2.instant := by
  obtain ⟨hy1, hm1a, hm1b, hd1a, hd1b, hh1, hmi1, hs1⟩ := hv1
  obtain ⟨hy2, hm2a, hm2b, hd2a, hd2b, hh2, hmi2, hs2⟩ := hv2
  unfold DT.instant toSecs
  have ht1 : timeSecs f1.hour f1.minute f1.second < 86400 := by
    unfold timeSecs; omega
  have ht2 : timeSecs f2.hour f2.minute f2.second < 86400 := by
    unfold timeSecs; omega
  rcases h with hy | ⟨hyeq, hrest⟩
  · have hdn : dayNumber (f1.year : Int) f1.month f1.day <
        dayNumber (f2.year : Int) f2.month f2.day :=
      dayNumber_lt_year_lt hy hm1b hd1b hm2a hd2a
    omega
  · rw [hyeq]
    rcases hrest with hm | ⟨hmeq, hrest⟩
    · have hdn : dayNumber (f2.year : Int) f1.month f1.day <
          dayNumber (f2.year : Int) f2.month f2.day := by
        apply dayNumber_lt_same_year _ hd2a (by omega)
        · rw [← hyeq]; exact hd1b
        · exact Or.inl hm
      omega
    · rw [hmeq]
      rcases hrest with hd | ⟨hdeq, hrest⟩
      · have hdn : dayNumber (f2.year : Int) f2.month f1.day <
            dayNumber (f2.year : Int) f2.month f2.day := by
          apply dayNumber_lt_same_year _ hd2a (by omega)
          · rw [← hyeq, ← hmeq]; exact hd1b
          · exact Or.inr ⟨rfl, hd⟩
        omega
      · rw [hdeq]
        unfold timeSecs at ht1 ht2 ⊢
        rcases hrest with hh | ⟨hheq, hrest⟩
        · omega
        · rw [hheq]
          rcases hrest with hmi | ⟨hmieq, hsec⟩
          · omega
          · rw [hmieq]; omega

/-- Trichotomy on the field tuples. -/
theorem lexLt_trichotomy (f1 f2 : DT) :
    DT.lexLt f1 f2 ∨ f1 = f2 ∨ DT.lexLt f2 f1 := by
  obtain ⟨y1, m1, d1, h1, mi1, s1⟩ := f1
  obtain ⟨y2, m2, d2, h2, mi2, s2⟩ := f2
  simp only [DT.lexLt, DT.mk.injEq]
  omega

theorem monthLen_le (leap : Bool) (m : Nat) : monthLen leap m ≤ 31 := by
  unfold monthLen
  split <;> first
    | omega
    | (cases leap <;> simp)

theorem strLt_cons_same (c : Char) (a b : Str) :
    strLt (c :: a) (c :: b) = strLt a b := by
  simp [strLt]

/-- On two texts of the same strict shape, the memcmp order is exactly
the lexicographic order of the (canonicalised) field tuples. -/
theorem strLt_render_iff (sh : TimeShape) {f1 f2 : DT}
    (hv1 : ValidDT f1) (hv2 : ValidDT f2) :
    (strLt (renderShape sh f1) (renderShape sh f2) = true) ↔
      DT.lexLt (canonShape sh f1) (canonShape sh f2) := by
  obtain ⟨hy1, hm1a, hm1b, hd1a, hd1b, hh1, hmi1, hs1⟩ := hv1
  obtain ⟨hy2, hm2a, hm2b, hd2a, hd2b, hh2, hmi2, hs2⟩ := hv2
  have hy1' : f1.year < 10 ^ 4 := by omega
  have hy2' : f2.year < 10 ^ 4 := by omega
  have hmonth1 : f1.month < 10 ^ 2 := by omega
  have hmonth2 : f2.month < 10 ^ 2 := by omega
  have hday1 : f1.day < 10 ^ 2 := by
    have := monthLen_le (isLeapZ (f1.year : Int)) f1.month
    omega
  have hday2 : f2.day < 10 ^ 2 := by
    have := monthLen_le (isLeapZ (f2.year : Int)) f2.month
    omega
  have hhour1 : f1.hour < 10 ^ 2 := by omega
  have hhour2 : f2.hour < 10 ^ 2 := by omega
  have hmin1 : f1.minute < 10 ^ 2 := by omega
  have hmin2 : f2.minute < 10 ^ 2 := by omega
  have hsec1 : f1.second < 10 ^ 2 := by omega
  have hsec2 : f2.second < 10 ^ 2 := by omega
  cases sh with
  | dateOnly =>
    have base : strLt (renderD f1) (renderD f2) = true ↔
        (f1.year < f2.year ∨ (f1.year = f2.year ∧
          (f1.month < f2.month ∨ (f1.month = f2.month ∧ f1.day < f2.day)))) := by
      unfold renderD
      rw [strLt_pad_append hy1' hy2', strLt_cons_same,
        strLt_pad_append hmonth1 hmonth2, strLt_cons_same]
      have hlast : strLt (padDigits 2 f1.day) (padDigits 2 f2.day) = true ↔
          f1.day < f2.day := by
        rw [show padDigits 2 f1.day = padDigits 2 f1.day ++ [] from
          (List.append_nil _).symm,
          show padDigits 2 f2.day = padDigits 2 f2.day ++ [] from
          (List.append_nil _).symm,
          strLt_pad_append hday1 hday2]
        simp [strLt]
      rw [hlast]
    refine base.trans ?_
    simp only [DT.lexLt, canonShape]
    omega
  | noSeconds =>
    have base : strLt (renderM f1) (renderM f2) = true ↔
        (f1.year < f2.year ∨ (f1.year = f2.year ∧
          (f1.month < f2.month ∨ (f1.month = f2.month ∧
            (f1.day < f2.day ∨ (f1.day = f2.day ∧
              (f1.hour < f2.hour ∨ (f1.hour = f2.hour ∧
                f1.minute < f2.minute)))))))) := by
      unfold renderM
      rw [strLt_pad_append hy1' hy2', strLt_cons_same,
        strLt_pad_append hmonth1 hmonth2, strLt_cons_same,
        strLt_pad_append hday1 hday2, strLt_cons_same,
        strLt_pad_append hhour1 hhour2, strLt_cons_same]
      have hlast : strLt (padDigits 2 f1.minute) (padDigits 2 f2.minute) = true ↔
          f1.minute < f2.minute := by
        rw [show padDigits 2 f1.minute = padDigits 2 f1.minute ++ [] from
          (List.append_nil _).symm,
          show padDigits 2 f2.minute = padDigits 2 f2.minute ++ [] from
          (List.append_nil _).symm,
          strLt_pad_append hmin1 hmin2]
        simp [strLt]
      rw [hlast]
    refine base.trans ?_
    simp only [DT.lexLt, canonShape]
    omega
  | withSeconds =>
    have base : strLt (renderS f1) (renderS f2) = true ↔
        (f1.year < f2.year ∨ (f1.year = f2.year ∧
          (f1.month < f2.month ∨ (f1.month = f2.month ∧
            (f1.day < f2.day ∨ (f1.day = f2.day ∧
              (f1.hour < f2.hour ∨ (f1.hour = f2.hour ∧
                (f1.minute < f2.minute ∨ (f1.minute = f2.minute ∧
                  f1.second < f2.second)))))))))) := by
      unfold renderS
      rw [strLt_pad_append hy1' hy2', strLt_cons_same,
        strLt_pad_append hmonth1 hmonth2, strLt_cons_same,
        strLt_pad_append hday1 hday2, strLt_cons_same,
        strLt_pad_append hhour1 hhour2, strLt_cons_same,
        strLt_pad_append hmin1 hmin2, strLt_cons_same]
      have hlast : strLt (padDigits 2 f1.second) (padDigits 2 f2.second) = true ↔
          f1.second < f2.second := by
        rw [show padDigits 2 f1.second = padDigits 2 f1.second ++ [] from
          (List.append_nil _).symm,
          show padDigits 2 f2.second = padDigits 2 f2.second ++ [] from
          (List.append_nil _).symm,
          strLt_pad_append hsec1 hsec2]
        simp [strLt]
      rw [hlast]
    refine base.trans ?_
    simp only [DT.lexLt, canonShape]

/-! ## The chrono pipeline on strictly-shaped texts -/

theorem isWSpace_of_digit {c : Char} (h : isDigit c = true) :
    isWSpace c = false := by
  have hb := isDigit_toNat h
  cases hw : isWSpace c with
  | false => rfl
  | true =>
    exfalso
    have hmem : c.toNat ∈ [0x9, 0xA, 0xB, 0xC, 0xD, 0x20, 0x85, 0xA0, 0x1680,
        0x2000, 0x2001, 0x2002, 0x2003, 0x2004, 0x2005, 0x2006, 0x2007,
        0x2008, 0x2009, 0x200A, 0x2028, 0x2029, 0x202F, 0x205F, 0x3000] :=
      of_decide_eq_true hw
    simp only [List.mem_cons, List.not_mem_nil, or_false] at hmem
    omega

theorem digit_ne_dash {c : Char} (h : isDigit c = true) : ¬(c = '-') := by
  intro he
  subst he
  exact absurd h (by decide)

theorem digit_ne_plus {c : Char} (h : isDigit c = true) : ¬(c = '+') := by
  intro he
  subst he
  exact absurd h (by decide)

theorem trimL_not_wspace {c : Char} (h : isWSpace c = false) (s : Str) :
    trimL (c :: s) = c :: s := by
  simp [trimL, List.dropWhile_cons, h]

theorem trimL_space (s : Str) : trimL (' ' :: s) = trimL s := by
  simp [trimL, List.dropWhile_cons, show isWSpace ' ' = true from by decide]

theorem trimL_pad {w : Nat} (hw : 0 < w) (n : Nat) (r : Str) :
    trimL (padDigits w n ++ r) = padDigits w n ++ r := by
  cases w with
  | zero => omega
  | succ w' =>
    show trimL (digitChar (n / 10 ^ w') :: (padDigits w' (n % 10 ^ w') ++ r)) = _
    exact trimL_not_wspace (not_wspace_digitChar _) _

theorem scanYear_pad {y : Nat} (hy : y < 10 ^ 4) {r : Str} (hr : noDigitHead r) :
    scanYear (padDigits 4 y ++ r) = some ((y : Int), r) := by
  unfold scanYear
  rw [trimL_pad (by omega) y r]
  have hcons : padDigits 4 y ++ r =
      digitChar (y / 10 ^ 3) :: (padDigits 3 (y % 10 ^ 3) ++ r) := rfl
  rw [hcons]
  have hdig : isDigit (digitChar (y / 10 ^ 3)) = true := isDigit_digitChar _
  show (if digitChar (y / 10 ^ 3) = '-' then
      (match scanNum (padDigits 3 (y % 10 ^ 3) ++ r).length
          (padDigits 3 (y % 10 ^ 3) ++ r) with
        | some (v, r) => some (-(v : Int), r)
        | none => none)
    else if digitChar (y / 10 ^ 3) = '+' then
      (match scanNum (padDigits 3 (y % 10 ^ 3) ++ r).length
          (padDigits 3 (y % 10 ^ 3) ++ r) with
        | some (v, r) => some ((v : Int), r)
        | none => none)
    else
      (match scanNum 4 (digitChar (y / 10 ^ 3) ::
          (padDigits 3 (y % 10 ^ 3) ++ r)) with
        | some (v, r) => some ((v : Int), r)
        | none => none)) = some ((y : Int), r)
  rw [if_neg (digit_ne_dash hdig), if_neg (digit_ne_plus hdig), ← hcons,
    scanNum_pad (le_refl 4) (by omega) hy hr]

theorem scanField_pad {n : Nat} (hn : n < 10 ^ 2) {r : Str} (hr : noDigitHead r) :
    scanField (padDigits 2 n ++ r) = some (n, r) := by
  unfold scanField
  rw [trimL_pad (by omega) n r, scanNum_pad (le_refl 2) (by omega) hn hr]

theorem parseYmd_pad {y m d : Nat} (hy : y < 10 ^ 4) (hm : m < 10 ^ 2)
    (hd : d < 10 ^ 2) {r : Str} (hr : noDigitHead r) :
    parseYmd (padDigits 4 y ++ '-' :: (padDigits 2 m ++ '-' ::
      (padDigits 2 d ++ r))) = some ((y : Int), m, d, r) := by
  unfold parseYmd
  rw [scanYear_pad hy (by exact (by decide : isDigit '-' = false))]
  show (match expectChar '-' ('-' :: (padDigits 2 m ++ '-' ::
      (padDigits 2 d ++ r))) with
    | none => none
    | some s2 => _) = _
  rw [show expectChar '-' ('-' :: (padDigits 2 m ++ '-' :: (padDigits 2 d ++ r))) =
    some (padDigits 2 m ++ '-' :: (padDigits 2 d ++ r)) from by simp [expectChar]]
  show (match scanField (padDigits 2 m ++ '-' :: (padDigits 2 d ++ r)) with
    | none => none
    | some (m, s3) => _) = _
  rw [scanField_pad hm (by exact (by decide : isDigit '-' = false))]
  show (match expectChar '-' ('-' :: (padDigits 2 d ++ r)) with
    | none => none
    | some s4 => _) = _
  rw [show expectChar '-' ('-' :: (padDigits 2 d ++ r)) =
    some (padDigits 2 d ++ r) from by simp [expectChar]]
  show (match scanField (padDigits 2 d ++ r) with
    | none => none
    | some (d, s5) => _) = _
  rw [scanField_pad hd hr]

theorem noDigitHead_space (s : Str) : noDigitHead (' ' :: s) := by
  show isDigit ' ' = false
  decide

theorem noDigitHead_colon (s : Str) : noDigitHead (':' :: s) := by
  show isDigit ':' = false
  decide

theorem noDigitHead_dash (s : Str) : noDigitHead ('-' :: s) := by
  show isDigit '-' = false
  decide

theorem day_lt_100 {f : DT} (hv : ValidDT f) : f.day < 10 ^ 2 := by
  obtain ⟨_, _, _, _, hd2, _, _, _⟩ := hv
  have := monthLen_le (isLeapZ (f.year : Int)) f.month
  omega

theorem validDT_strict {f : DT} (hv : ValidDT f) (h mi s : Nat)
    (hh : h ≤ 23) (hmi : mi ≤ 59) (hs : s ≤ 60) :
    validDT (f.year : Int) f.month f.day h mi s = true := by
  obtain ⟨hy, hm1, hm2, hd1, hd2, _, _, _⟩ := hv
  unfold validDT
  simp only [Bool.and_eq_true, decide_eq_true_eq]
  omega

theorem chronoS_renderS {f : DT} (hv : ValidDT f) :
    chronoS (renderS f) = some f.instant := by
  obtain ⟨hy, hm1, hm2, hd1, hd2, hh, hmi, hs⟩ := hv
  have hday := day_lt_100 ⟨hy, hm1, hm2, hd1, hd2, hh, hmi, hs⟩
  unfold chronoS renderS
  rw [parseYmd_pad (by omega) (by omega) hday (noDigitHead_space _)]
  show (match scanField (trimL (' ' :: (padDigits 2 f.hour ++ ':' ::
      (padDigits 2 f.minute ++ ':' :: padDigits 2 f.second)))) with
    | none => none
    | some (h, s6) => _) = some f.instant
  rw [trimL_space, trimL_pad (by omega),
    scanField_pad (by omega) (noDigitHead_colon _)]
  show (match expectChar ':' (':' :: (padDigits 2 f.minute ++ ':' ::
      padDigits 2 f.second)) with
    | none => none
    | some s7 => _) = some f.instant
  rw [show expectChar ':' (':' :: (padDigits 2 f.minute ++ ':' ::
    padDigits 2 f.second)) = some (padDigits 2 f.minute ++ ':' ::
    padDigits 2 f.second) from by simp [expectChar]]
  show (match scanField (padDigits 2 f.minute ++ ':' :: padDigits 2 f.second) with
    | none => none
    | some (mi, s8) => _) = some f.instant
  rw [scanField_pad (by omega) (noDigitHead_colon _)]
  show (match expectChar ':' (':' :: padDigits 2 f.second) with
    | none => none
    | some s9 => _) = some f.instant
  rw [show expectChar ':' (':' :: padDigits 2 f.second) =
    some (padDigits 2 f.second) from by simp [expectChar]]
  show (match scanField (padDigits 2 f.second) with
    | none => none
    | some (sec, s10) => _) = some f.instant
  rw [show padDigits 2 f.second = padDigits 2 f.second ++ [] from
    (List.append_nil _).symm, scanField_pad (by omega) (by exact trivial)]
  show (if List.isEmpty [] && validDT (f.year : Int) f.month f.day f.hour
      f.minute f.second then some (toSecs (f.year : Int) f.month f.day f.hour
      f.minute f.second) else none) = some f.instant
  rw [validDT_strict ⟨hy, hm1, hm2, hd1, hd2, hh, hmi, hs⟩ _ _ _ hh hmi
    (by omega)]
  rfl

theorem chronoS_renderM {f : DT} (hv : ValidDT f) :
    chronoS (renderM f) = none := by
  obtain ⟨hy, hm1, hm2, hd1, hd2, hh, hmi, hs⟩ := hv
  have hday := day_lt_100 ⟨hy, hm1, hm2, hd1, hd2, hh, hmi, hs⟩
  unfold chronoS renderM
  rw [parseYmd_pad (by omega) (by omega) hday (noDigitHead_space _)]
  show (match scanField (trimL (' ' :: (padDigits 2 f.hour ++ ':' ::
      padDigits 2 f.minute))) with
    | none => none
    | some (h, s6) => _) = none
  rw [trimL_space, trimL_pad (by omega),
    scanField_pad (by omega) (noDigitHead_colon _)]
  show (match expectChar ':' (':' :: padDigits 2 f.minute) with
    | none => none
    | some s7 => _) = none
  rw [show expectChar ':' (':' :: padDigits 2 f.minute) =
    some (padDigits 2 f.minute) from by simp [expectChar]]
  show (match scanField (padDigits 2 f.minute) with
    | none => none
    | some (mi, s8) => _) = none
  rw [show padDigits 2 f.minute = padDigits 2 f.minute ++ [] from
    (List.append_nil _).symm, scanField_pad (by omega) (by exact trivial)]
  rfl

theorem chronoS_renderD {f : DT} (hv : ValidDT f) :
    chronoS (renderD f) = none := by
  obtain ⟨hy, hm1, hm2, hd1, hd2, hh, hmi, hs⟩ := hv
  have hday := day_lt_100 ⟨hy, hm1, hm2, hd1, hd2, hh, hmi, hs⟩
  unfold chronoS renderD
  rw [show padDigits 2 f.day = padDigits 2 f.day ++ [] from
    (List.append_nil _).symm, parseYmd_pad (by omega) (by omega) hday
    (by exact trivial)]
  rfl

theorem chronoM_renderM {f : DT} (hv : ValidDT f) :
    chronoM (renderM f) = some (toSecs (f.year : Int) f.month f.day f.hour
      f.minute 0) := by
  obtain ⟨hy, hm1, hm2, hd1, hd2, hh, hmi, hs⟩ := hv
  have hday := day_lt_100 ⟨hy, hm1, hm2, hd1, hd2, hh, hmi, hs⟩
  unfold chronoM renderM
  rw [parseYmd_pad (by omega) (by omega) hday (noDigitHead_space _)]
  show (match scanField (trimL (' ' :: (padDigits 2 f.hour ++ ':' ::
      padDigits 2 f.minute))) with
    | none => none
    | some (h, s6) => _) = _
  rw [trimL_space, trimL_pad (by omega),
    scanField_pad (by omega) (noDigitHead_colon _)]
  show (match expectChar ':' (':' :: padDigits 2 f.minute) with
    | none => none
    | some s7 => _) = _
  rw [show expectChar ':' (':' :: padDigits 2 f.minute) =
    some (padDigits 2 f.minute) from by simp [expectChar]]
  show (match scanField (padDigits 2 f.minute) with
    | none => none
    | some (mi, s8) => _) = _
  rw [show padDigits 2 f.minute = padDigits 2 f.minute ++ [] from
    (List.append_nil _).symm, scanField_pad (by omega) (by exact trivial)]
  show (if List.isEmpty [] && validDT (f.year : Int) f.month f.day f.hour
      f.minute 0 then some (toSecs (f.year : Int) f.month f.day f.hour
      f.minute 0) else none) = _
  rw [validDT_strict ⟨hy, hm1, hm2, hd1, hd2, hh, hmi, hs⟩ _ _ _ hh hmi
    (by omega)]
  rfl

theorem chronoM_renderD {f : DT} (hv : ValidDT f) :
    chronoM (renderD f) = none := by
  obtain ⟨hy, hm1, hm2, hd1, hd2, hh, hmi, hs⟩ := hv
  have hday := day_lt_100 ⟨hy, hm1, hm2, hd1, hd2, hh, hmi, hs⟩
  unfold chronoM renderD
  rw [show padDigits 2 f.day = padDigits 2 f.day ++ [] from
    (List.append_nil _).symm, parseYmd_pad (by omega) (by omega) hday
    (by exact trivial)]
  rfl

theorem chronoD_renderD {f : DT} (hv : ValidDT f) :
    chronoD (renderD f) = some (toSecs (f.year : Int) f.month f.day 0 0 0) := by
  obtain ⟨hy, hm1, hm2, hd1, hd2, hh, hmi, hs⟩ := hv
  have hday := day_lt_100 ⟨hy, hm1, hm2, hd1, hd2, hh, hmi, hs⟩
  unfold chronoD renderD
  rw [show padDigits 2 f.day = padDigits 2 f.day ++ [] from
    (List.append_nil _).symm, parseYmd_pad (by omega) (by omega) hday
    (by exact trivial)]
  show (if List.isEmpty [] && validDT (f.year : Int) f.month f.day 0 0 0 then
    some (toSecs (f.year : Int) f.month f.day 0 0 0) else none) = _
  rw [validDT_strict ⟨hy, hm1, hm2, hd1, hd2, hh, hmi, hs⟩ _ _ _
    (by omega) (by omega) (by omega)]
  rfl

/-- Round trip: a strictly-shaped text parses to the instant of its
fields, omitted fields defaulting to zero. -/
theorem parse_time_render (sh : TimeShape) {f : DT} (hv : ValidDT f) :
    parse_time (renderShape sh f) = .ok ((canonShape sh f).instant) := by
  cases sh with
  | withSeconds =>
    show parse_time (renderS f) = _
    unfold parse_time
    rw [chronoS_renderS hv]
    rfl
  | noSeconds =>
    show parse_time (renderM f) = _
    unfold parse_time
    rw [chronoS_renderM hv, chronoM_renderM hv]
    rfl
  | dateOnly =>
    show parse_time (renderD f) = _
    unfold parse_time
    rw [chronoS_renderD hv, chronoM_renderD hv, chronoD_renderD hv]
    rfl

/-! ## Characterisation of the cycle matcher's LOAD query -/

theorem latestLoadBefore_strLt {st : SysState} {o : Int} {c pushT lt : Str}
    (h : latestLoadBefore st o c pushT = some lt) : strLt lt pushT = true := by
  unfold latestLoadBefore at h
  have hm := maxTimeStr_mem h
  simp only [List.mem_map, List.mem_filter] at hm
  obtain ⟨r, ⟨_, hcond⟩, htime⟩ := hm
  simp only [Bool.and_eq_true] at hcond
  rw [← htime]
  exact hcond.2

theorem latestLoadBefore_mem {st : SysState} {o : Int} {c pushT lt : Str}
    (h : latestLoadBefore st o c pushT = some lt) :
    ∃ r ∈ st.ops, r.oven = o ∧ r.chamber = c ∧ r.op_type = strLOAD ∧
      r.time = lt ∧ strLt r.time pushT = true := by
  unfold latestLoadBefore at h
  have hm := maxTimeStr_mem h
  simp only [List.mem_map, List.mem_filter] at hm
  obtain ⟨r, ⟨hmem, hcond⟩, htime⟩ := hm
  simp only [Bool.and_eq_true, beq_iff_eq] at hcond
  exact ⟨r, hmem, hcond.1.1.1, hcond.1.1.2, hcond.1.2, htime, hcond.2⟩

theorem latestLoadBefore_ub {st : SysState} {o : Int} {c pushT lt : Str}
    (h : latestLoadBefore st o c pushT = some lt) :
    ∀ r ∈ st.ops, r.oven = o → r.chamber = c → r.op_type = strLOAD →
      strLt r.time pushT = true → strLt lt r.time = false := by
  intro r hmem ho hc hop hlt
  unfold latestLoadBefore at h
  refine maxTimeStr_ub h r.time ?_
  simp only [List.mem_map, List.mem_filter]
  exact ⟨r, ⟨hmem, by simp [ho, hc, hop, hlt]⟩, rfl⟩

theorem latestLoadBefore_none_iff (st : SysState) (o : Int) (c pushT : Str) :
    latestLoadBefore st o c pushT = none ↔
      ∀ r ∈ st.ops, ¬(r.oven = o ∧ r.chamber = c ∧ r.op_type = strLOAD ∧
        strLt r.time pushT = true) := by
  unfold latestLoadBefore
  rw [maxTimeStr_none_iff, List.map_eq_nil_iff, List.filter_eq_nil_iff]
  constructor
  · intro h r hmem hcond
    refine h r hmem ?_
    simp [hcond.1, hcond.2.1, hcond.2.2.1, hcond.2.2.2]
  · intro h r hmem hcond
    simp only [Bool.and_eq_true, beq_iff_eq] at hcond
    exact h r hmem ⟨hcond.1.1.1, hcond.1.1.2, hcond.1.2, hcond.2⟩

/-- Appending the PUSH operation row itself does not change the LOAD
query's result. -/
theorem latestLoadBefore_append_push (st : SysState) (o : Int) (c pushT : Str)
    (row : OpRow) (hrow : row.op_type = strPUSH) :
    latestLoadBefore { st with ops := st.ops ++ [row] } o c pushT =
      latestLoadBefore st o c pushT := by
  unfold latestLoadBefore
  have : (({ st with ops := st.ops ++ [row] } : SysState).ops.filter fun r =>
      r.oven == o && r.chamber == c && r.op_type == strLOAD &&
        strLt r.time pushT) =
      st.ops.filter fun r => r.oven == o && r.chamber == c &&
        r.op_type == strLOAD && strLt r.time pushT := by
    show List.filter _ (st.ops ++ [row]) = _
    rw [List.filter_append]
    have hrowf : (List.filter (fun r => r.oven == o && r.chamber == c &&
        r.op_type == strLOAD && strLt r.time pushT) [row]) = [] := by
      simp only [List.filter, hrow]
      have : (strPUSH == strLOAD) = false := by decide
      simp [this]
    rw [hrowf, List.append_nil]
  rw [this]

/-- `try_calculate_coking_cycle` only ever appends to `cycles`. -/
theorem try_calculate_tables {st st' : SysState} {o : Int} {c pushT : Str}
    (h : try_calculate_coking_cycle st o c pushT = .ok st') :
    st'.ops = st.ops ∧ st'.temps = st.temps ∧
      ∃ tail, st'.cycles = st.cycles ++ tail := by
  unfold try_calculate_coking_cycle at h
  split at h
  · cases h
    exact ⟨rfl, rfl, [], (List.append_nil _).symm⟩
  · split at h
    · cases h
    · split at h
      · cases h
      · split at h
        · cases h
        · cases h
          exact ⟨rfl, rfl, _, rfl⟩

/-- Success shape of the cycle matcher when a LOAD is matched. -/
theorem try_calculate_some {st : SysState} {o : Int} {c pushT lt : Str}
    {lv pv : Int} (hm : latestLoadBefore st o c pushT = some lt)
    (hl : parse_time lt = .ok lv) (hp : parse_time pushT = .ok pv)
    (hnodup : (st.cycles.any fun r => r.oven == o && r.chamber == c &&
      r.push_time == pushT) = false) :
    try_calculate_coking_cycle st o c pushT = .ok { st with cycles :=
      st.cycles ++ [⟨o, c, lt, pushT,
        minutes_to_hhmm (wrap32 ((pv - lv).tdiv 60)),
        (avgCols st o lt pushT).1, (avgCols st o lt pushT).2⟩] } := by
  unfold try_calculate_coking_cycle
  rw [hm]
  show (match parse_time lt with
    | Except.error _ => (Except.error SysErr.queryFailure : Except SysErr SysState)
    | Except.ok load_dt =>
      match parse_time pushT with
      | Except.error _ => Except.error SysErr.queryFailure
      | Except.ok push_dt =>
        if st.cycles.any fun r => r.oven == o && r.chamber == c &&
            r.push_time == pushT then Except.error SysErr.duplicateRecord
        else Except.ok { st with cycles := st.cycles ++
          [(⟨o, c, lt, pushT,
            minutes_to_hhmm (wrap32 ((push_dt - load_dt).tdiv 60)),
            (avgCols st o lt pushT).1, (avgCols st o lt pushT).2⟩ : CycleRow)] }) = _
  rw [hl, hp]
  show (if st.cycles.any fun r => r.oven == o && r.chamber == c &&
      r.push_time == pushT then
        (Except.error SysErr.duplicateRecord : Except SysErr SysState)
    else _) = _
  rw [if_neg (by rw [hnodup]; exact fun hx => Bool.noConfusion hx)]

/-- Reaching the matcher: a PUSH that passes validation and the
operation-row insert hands over to `try_calculate_coking_cycle` on the
state with the PUSH row appended. -/
theorem record_operation_push {st : SysState} {o : Int} {c pushT : Str}
    {pv : Int} (h1 : ovenIds.contains o = true) (h2 : is_valid_chamber c = true)
    (hp : parse_time pushT = .ok pv)
    (hnodup : (st.ops.any fun r => r.oven == o && r.chamber == c &&
      r.time == pushT) = false) :
    record_operation st o c strPUSH pushT =
      try_calculate_coking_cycle
        { st with ops := st.ops ++ [⟨o, c, strPUSH, pushT⟩] } o c pushT := by
  unfold record_operation
  rw [if_neg (show ¬(ovenIds.contains o = false) by
      rw [h1]; exact fun hx => Bool.noConfusion hx),
    if_neg (show ¬(is_valid_chamber c = false) by
      rw [h2]; exact fun hx => Bool.noConfusion hx),
    if_neg (show ¬((strPUSH == strLOAD || strPUSH == strPUSH) = false) by decide)]
  show (match parse_time pushT with
    | Except.error e => (Except.error e : Except SysErr SysState)
    | Except.ok _ => _) = _
  rw [hp]
  show (if st.ops.any fun r => r.oven == o && r.chamber == c &&
      r.time == pushT then
        (Except.error SysErr.duplicateRecord : Except SysErr SysState)
    else _) = _
  rw [if_neg (by rw [hnodup]; exact fun hx => Bool.noConfusion hx)]
  show (if strPUSH == strPUSH then
      try_calculate_coking_cycle
        { st with ops := st.ops ++ [⟨o, c, strPUSH, pushT⟩] } o c pushT
    else Except.ok { st with ops := st.ops ++ [⟨o, c, strPUSH, pushT⟩] }) = _
  rw [if_pos (by decide)]

instance {e a : Type} [DecidableEq e] [DecidableEq a] :
    DecidableEq (Except e a) := fun x y =>
  match x, y with
  | .error e1, .error e2 =>
    if h : e1 = e2 then isTrue (by rw [h]) else isFalse (by
      intro hx; cases hx; exact h rfl)
  | .ok a1, .ok a2 =>
    if h : a1 = a2 then isTrue (by rw [h]) else isFalse (by
      intro hx; cases hx; exact h rfl)
  | .error _, .ok _ => isFalse (by intro hx; cases hx)
  | .ok _, .error _ => isFalse (by intro hx; cases hx)

/-! ## The claims -/

/-- C5: `interpolate_temp` satisfies the five-case contract: both
neighbours present at distinct instants gives, per channel,
`prior + (next − prior) × ratio` with
`ratio = (target − prior) / (next − prior)` in seconds; both present at
one instant returns the prior's readings; a single present side is
returned unchanged; neither present gives absence. -/
theorem C5_interpolate_contract :
    (∀ (p n : TempRecord) (target : Int), p.time ≠ n.time →
      interpolate_temp (some p) (some n) target =
        some (p.machine_side + (n.machine_side - p.machine_side) *
            (((target - p.time : Int) : ℚ) / ((n.time - p.time : Int) : ℚ)),
          p.coke_side + (n.coke_side - p.coke_side) *
            (((target - p.time : Int) : ℚ) / ((n.time - p.time : Int) : ℚ)))) ∧
    (∀ (p n : TempRecord) (target : Int), p.time = n.time →
      interpolate_temp (some p) (some n) target =
        some (p.machine_side, p.coke_side)) ∧
    (∀ (p : TempRecord) (target : Int),
      interpolate_temp (some p) none target =
        some (p.machine_side, p.coke_side)) ∧
    (∀ (n : TempRecord) (target : Int),
      interpolate_temp none (some n) target =
        some (n.machine_side, n.coke_side)) ∧
    (∀ target : Int, interpolate_temp none none target = none) := by
  refine ⟨?_, ?_, fun p target => rfl, fun n target => rfl, fun target => rfl⟩
  · intro p n target hne
    have hts : ¬(((n.time - p.time : Int) : ℚ) = 0) := by
      simp only [Int.cast_eq_zero, sub_eq_zero]
      exact fun hx => hne hx.symm
    unfold interpolate_temp
    show (if ((n.time - p.time : Int) : ℚ) = 0
        then some (p.machine_side, p.coke_side)
        else some (p.machine_side + (n.machine_side - p.machine_side) *
            (((target - p.time : Int) : ℚ) / ((n.time - p.time : Int) : ℚ)),
          p.coke_side + (n.coke_side - p.coke_side) *
            (((target - p.time : Int) : ℚ) / ((n.time - p.time : Int) : ℚ)))) = _
    rw [if_neg hts]
  · intro p n target heq
    have hts : ((n.time - p.time : Int) : ℚ) = 0 := by
      simp [heq]
    unfold interpolate_temp
    show (if ((n.time - p.time : Int) : ℚ) = 0
        then some (p.machine_side, p.coke_side)
        else _) = _
    rw [if_pos hts]

theorem C5_interpolate_contract_witness :
    interpolate_temp (some ⟨0, 100, 200⟩) (some ⟨3600, 200, 300⟩) 1800 =
      some ((100 : ℚ) + (200 - 100) *
          (((1800 - 0 : Int) : ℚ) / ((3600 - 0 : Int) : ℚ)),
        (200 : ℚ) + (300 - 200) *
          (((1800 - 0 : Int) : ℚ) / ((3600 - 0 : Int) : ℚ))) ∧
    interpolate_temp (some ⟨0, 100, 200⟩) (some ⟨0, 1, 2⟩) 50 = some (100, 200) ∧
    interpolate_temp (some ⟨0, 100, 200⟩) none 7 = some (100, 200) ∧
    interpolate_temp none (some ⟨3600, 200, 300⟩) 7 = some (200, 300) ∧
    interpolate_temp none none 7 = none :=
  ⟨C5_interpolate_contract.1 _ _ 1800 (by decide),
   C5_interpolate_contract.2.1 _ _ 50 rfl,
   C5_interpolate_contract.2.2.1 _ 7,
   C5_interpolate_contract.2.2.2.1 _ 7,
   C5_interpolate_contract.2.2.2.2 7⟩

/-- C6: the integration never divides by zero: adjacent pairs with
identical instants are skipped during integration, and when the total
accumulated duration is zero the average degenerates to the first
point's readings instead of dividing; otherwise it is the accumulated
trapezoidal area divided by the total duration per channel. -/
theorem C6_integration_no_div_by_zero :
    (∀ (acc : ℚ × ℚ × ℚ) (p q : TimeTempPoint) (rest : List TimeTempPoint),
      p.time = q.time →
        integralGo acc (p :: q :: rest) = integralGo acc (q :: rest)) ∧
    (∀ (p0 : TimeTempPoint) (rest : List TimeTempPoint),
      (calculate_integral (p0 :: rest)).2.2 = 0 →
        avgFromPoints p0 rest = (p0.machine, p0.coke)) ∧
    (∀ (p0 : TimeTempPoint) (rest : List TimeTempPoint) (tm tc td : ℚ),
      calculate_integral (p0 :: rest) = (tm, tc, td) → td ≠ 0 →
        avgFromPoints p0 rest = (tm / td, tc / td)) := by
  refine ⟨?_, ?_, ?_⟩
  · intro acc p q rest hpq
    show (if p.time = q.time then integralGo acc (q :: rest)
      else integralGo (integralStep acc p q) (q :: rest)) = _
    rw [if_pos hpq]
  · intro p0 rest h
    unfold avgFromPoints
    rcases hci : calculate_integral (p0 :: rest) with ⟨tm, tc, td⟩
    rw [hci] at h
    show (if td = 0 then (p0.machine, p0.coke) else (tm / td, tc / td)) = _
    rw [if_pos (show td = 0 from h)]
  · intro p0 rest tm tc td hci hne
    unfold avgFromPoints
    rw [hci]
    show (if td = 0 then (p0.machine, p0.coke) else (tm / td, tc / td)) = _
    rw [if_neg hne]

theorem C6_integration_no_div_by_zero_witness :
    integralGo (0, 0, 0) (⟨0, 1, 2⟩ :: ⟨0, 3, 4⟩ :: []) =
      integralGo (0, 0, 0) (⟨0, 3, 4⟩ :: []) ∧
    avgFromPoints ⟨5, 10, 20⟩ [] = (10, 20) ∧
    avgFromPoints ⟨0, 100, 200⟩ [⟨60, 200, 300⟩] = (150 / 1, 250 / 1) :=
  ⟨C6_integration_no_div_by_zero.1 _ _ _ _ rfl,
   C6_integration_no_div_by_zero.2.1 _ _ rfl,
   C6_integration_no_div_by_zero.2.2 _ _ 150 250 1
     (by norm_num [calculate_integral, integralGo, integralStep])
     (by norm_num)⟩

/-- C8: every call to `record_temperature` or `record_operation` that
fails validation — unknown oven, chamber invalid for the oven, operation
kind outside LOAD/PUSH, or unparseable time text — returns the
corresponding error before any insertion or cycle matching; in this
embedding an error result carries no state change, exactly as the Rust
code returns before touching the store. -/
theorem C8_validation_precedes_persistence :
    (∀ (st : SysState) (o : Int) (t : Str) (mt ct : ℚ),
      ovenIds.contains o = false →
        record_temperature st o t mt ct = .error .invalidOven) ∧
    (∀ (st : SysState) (o : Int) (t : Str) (mt ct : ℚ) (e : SysErr),
      ovenIds.contains o = true → parse_time t = .error e →
        record_temperature st o t mt ct = .error e) ∧
    (∀ (st : SysState) (o : Int) (c k t : Str),
      ovenIds.contains o = false →
        record_operation st o c k t = .error .invalidOven) ∧
    (∀ (st : SysState) (o : Int) (c k t : Str),
      ovenIds.contains o = true → is_valid_chamber c = false →
        record_operation st o c k t = .error .invalidChamber) ∧
    (∀ (st : SysState) (o : Int) (c k t : Str),
      ovenIds.contains o = true → is_valid_chamber c = true →
      (k == strLOAD || k == strPUSH) = false →
        record_operation st o c k t = .error .invalidOperationKind) ∧
    (∀ (st : SysState) (o : Int) (c k t : Str) (e : SysErr),
      ovenIds.contains o = true → is_valid_chamber c = true →
      (k == strLOAD || k == strPUSH) = true → parse_time t = .error e →
        record_operation st o c k t = .error e) := by
  refine ⟨?_, ?_, ?_, ?_, ?_, ?_⟩
  · intro st o t mt ct h
    unfold record_temperature
    rw [if_pos h]
  · intro st o t mt ct e h1 h2
    unfold record_temperature
    rw [if_neg (by rw [h1]; exact fun hx => Bool.noConfusion hx)]
    show (match parse_time t with
      | Except.error e => (Except.error e : Except SysErr SysState)
      | Except.ok _ => _) = _
    rw [h2]
  · intro st o c k t h
    unfold record_operation
    rw [if_pos h]
  · intro st o c k t h1 h2
    unfold record_operation
    rw [if_neg (by rw [h1]; exact fun hx => Bool.noConfusion hx), if_pos h2]
  · intro st o c k t h1 h2 h3
    unfold record_operation
    rw [if_neg (by rw [h1]; exact fun hx => Bool.noConfusion hx),
      if_neg (by rw [h2]; exact fun hx => Bool.noConfusion hx), if_pos h3]
  · intro st o c k t e h1 h2 h3 h4
    unfold record_operation
    rw [if_neg (by rw [h1]; exact fun hx => Bool.noConfusion hx),
      if_neg (by rw [h2]; exact fun hx => Bool.noConfusion hx),
      if_neg (by rw [h3]; exact fun hx => Bool.noConfusion hx)]
    show (match parse_time t with
      | Except.error e => (Except.error e : Except SysErr SysState)
      | Except.ok _ => _) = _
    rw [h4]

theorem C8_validation_precedes_persistence_witness :
    record_temperature initState 4 "2025-06-18 08:00".data 1 2 =
      .error .invalidOven ∧
    record_temperature initState 1 "invalid-time".data 1 2 =
      .error .invalidTimeFormat ∧
    record_operation initState 9 "1#".data "LOAD".data "2025-06-18".data =
      .error .invalidOven ∧
    record_operation initState 1 "999#".data "LOAD".data "2025-06-18".data =
      .error .invalidChamber ∧
    record_operation initState 1 "1#".data "INVALID".data "2025-06-18".data =
      .error .invalidOperationKind ∧
    record_operation initState 1 "1#".data "LOAD".data "18/06/2025".data =
      .error .invalidTimeFormat :=
  ⟨C8_validation_precedes_persistence.1 initState 4 _ 1 2 (by decide),
   C8_validation_precedes_persistence.2.1 initState 1 _ 1 2 _ (by decide)
     (by decide),
   C8_validation_precedes_persistence.2.2.1 initState 9 _ _ _ (by decide),
   C8_validation_precedes_persistence.2.2.2.1 initState 1 _ _ _ (by decide)
     (by decide),
   C8_validation_precedes_persistence.2.2.2.2.1 initState 1 _ _ _ (by decide)
     (by decide) (by decide),
   C8_validation_precedes_persistence.2.2.2.2.2 initState 1 _ _ _ _ (by decide)
     (by decide) (by decide) (by decide)⟩

/-- C7 counterexample: a matched LOAD/PUSH pair (text order satisfies
the matcher, instants reversed because the texts use different chrono
formats) whose elapsed seconds are negative and not a multiple of 60:
`num_minutes` truncates toward zero (−480), while the floor of
elapsed/60 is −481, so the stored duration is not the floor of the
elapsed seconds divided by 60. -/
theorem C7_counterexample :
    record_operation
        { initState with ops :=
          [⟨1, "1#".data, strLOAD, "2025-06-18 09:00:30".data⟩] }
        1 "1#".data strPUSH "2025-06-18 1:00".data =
      .ok ⟨[], [⟨1, "1#".data, strLOAD, "2025-06-18 09:00:30".data⟩,
                ⟨1, "1#".data, strPUSH, "2025-06-18 1:00".data⟩],
        [⟨1, "1#".data, "2025-06-18 09:00:30".data, "2025-06-18 1:00".data,
          "-8:00".data, none, none⟩]⟩ ∧
    parse_time "2025-06-18 09:00:30".data = .ok 63917456430 ∧
    parse_time "2025-06-18 1:00".data = .ok 63917427600 ∧
    Int.tdiv (63917427600 - 63917456430) 60 = -480 ∧
    Int.fdiv (63917427600 - 63917456430) 60 = -481 ∧
    minutes_to_hhmm (-480) = "-8:00".data := by
  refine ⟨by decide, by decide, by decide, by decide, by decide, by decide⟩

/-- C7 amended: the duration of a matched cycle is the elapsed seconds
`T − L` divided by 60 truncating toward zero (chrono `num_minutes`),
reduced wrapping into `i32`, and rendered by `minutes_to_hhmm`; for
`L ≤ T` the truncating division coincides with the floor, and the
rendering satisfies the spec's examples 0→"00:00", 59→"00:59",
60→"01:00", 1709→"28:29" with unbounded hours. -/
theorem C7_duration_amended :
    (∀ (st : SysState) (o : Int) (c pushT lt : Str) (lv pv : Int),
      latestLoadBefore st o c pushT = some lt → parse_time lt = .ok lv →
      parse_time pushT = .ok pv →
      (st.cycles.any fun r => r.oven == o && r.chamber == c &&
        r.push_time == pushT) = false →
      try_calculate_coking_cycle st o c pushT = .ok { st with cycles :=
        st.cycles ++ [⟨o, c, lt, pushT,
          minutes_to_hhmm (wrap32 ((pv - lv).tdiv 60)),
          (avgCols st o lt pushT).1, (avgCols st o lt pushT).2⟩] }) ∧
    (∀ a b : Int, a ≤ b → (b - a).tdiv 60 = (b - a).fdiv 60) ∧
    minutes_to_hhmm 0 = "00:00".data ∧
    minutes_to_hhmm 59 = "00:59".data ∧
    minutes_to_hhmm 60 = "01:00".data ∧
    minutes_to_hhmm 1709 = "28:29".data := by
  refine ⟨?_, ?_, by decide, by decide, by decide, by decide⟩
  · intro st o c pushT lt lv pv hm hl hp hnodup
    exact try_calculate_some hm hl hp hnodup
  · intro a b hab
    exact (Int.fdiv_eq_tdiv (by omega) (by omega)).symm

theorem C7_duration_amended_witness :
    try_calculate_coking_cycle
        ⟨[], [⟨1, "1#".data, strLOAD, "2025-06-18 08:16".data⟩], []⟩
        1 "1#".data "2025-06-19 12:45".data =
      .ok ⟨[], [⟨1, "1#".data, strLOAD, "2025-06-18 08:16".data⟩],
        [⟨1, "1#".data, "2025-06-18 08:16".data, "2025-06-19 12:45".data,
          minutes_to_hhmm (wrap32 (((63917556300 : Int) - 63917453760).tdiv 60)),
          (avgCols ⟨[], [⟨1, "1#".data, strLOAD, "2025-06-18 08:16".data⟩], []⟩
            1 "2025-06-18 08:16".data "2025-06-19 12:45".data).1,
          (avgCols ⟨[], [⟨1, "1#".data, strLOAD, "2025-06-18 08:16".data⟩], []⟩
            1 "2025-06-18 08:16".data "2025-06-19 12:45".data).2⟩]⟩ ∧
    Int.tdiv ((63917556300 : Int) - 63917453760) 60 =
      Int.fdiv ((63917556300 : Int) - 63917453760) 60 :=
  ⟨C7_duration_amended.1 _ 1 "1#".data "2025-06-19 12:45".data
      "2025-06-18 08:16".data 63917453760 63917556300 (by decide)
      (by decide) (by decide) (by decide),
   C7_duration_amended.2.1 63917453760 63917556300 (by decide)⟩

/-- C9 counterexample: two accepted texts denoting the same instant
("2025-06-18 08:16" and "2025-06-18 08:16:00") are distinct uniqueness
keys: after a successful insert for the first, an insert for the second
— the same oven and the same instant — succeeds instead of failing with
a duplicate-record error. -/
theorem C9_counterexample :
    record_temperature initState 1 "2025-06-18 08:16".data 100 200 =
      .ok ⟨[⟨1, "2025-06-18 08:16".data, 100, 200⟩], [], []⟩ ∧
    record_temperature ⟨[⟨1, "2025-06-18 08:16".data, 100, 200⟩], [], []⟩ 1
        "2025-06-18 08:16:00".data 100 200 =
      .ok ⟨[⟨1, "2025-06-18 08:16".data, 100, 200⟩,
            ⟨1, "2025-06-18 08:16:00".data, 100, 200⟩], [], []⟩ ∧
    parse_time "2025-06-18 08:16".data = .ok 63917453760 ∧
    parse_time "2025-06-18 08:16:00".data = .ok 63917453760 ∧
    "2025-06-18 08:16".data ≠ "2025-06-18 08:16:00".data := by
  refine ⟨by decide, by decide, by decide, by decide, by decide⟩

/-- C9 amended: a second `record_temperature` call for the same oven
and the same *time text* (the actual uniqueness key) fails with the
duplicate-record error; the store is left unchanged (an error result
carries no state change). -/
theorem C9_duplicate_text (st : SysState) (o : Int) (t : Str) (mt ct : ℚ)
    (v : Int) (h1 : ovenIds.contains o = true) (h2 : parse_time t = .ok v)
    (h3 : (st.temps.any fun r => r.oven == o && r.time == t) = true) :
    record_temperature st o t mt ct = .error .duplicateRecord := by
  unfold record_temperature
  rw [if_neg (by rw [h1]; exact fun hx => Bool.noConfusion hx)]
  show (match parse_time t with
    | Except.error e => (Except.error e : Except SysErr SysState)
    | Except.ok _ => _) = _
  rw [h2]
  show (if st.temps.any fun r => r.oven == o && r.time == t then
      (Except.error SysErr.duplicateRecord : Except SysErr SysState)
    else _) = _
  rw [if_pos h3]

theorem C9_duplicate_text_witness :
    record_temperature ⟨[⟨1, "2025-06-18 08:16".data, 100, 200⟩], [], []⟩ 1
      "2025-06-18 08:16".data 300 400 = .error .duplicateRecord :=
  C9_duplicate_text _ 1 _ 300 400 63917453760 (by decide) (by decide)
    (by decide)

theorem filter_temps_empty {st : SysState} {o : Int}
    (h : ∀ r ∈ st.temps, (r.oven == o) = false) (p : TempRow → Bool) :
    (st.temps.filter fun r => r.oven == o && p r) = [] := by
  rw [List.filter_eq_nil_iff]
  intro r hr
  rw [h r hr]
  simp

theorem get_nearest_empty {st : SysState} {o : Int} (t : Str) (before : Bool)
    (h : ∀ r ∈ st.temps, (r.oven == o) = false) :
    get_nearest_temp_record st o t before = .ok none := by
  unfold get_nearest_temp_record
  rw [filter_temps_empty h _]
  rfl

theorem range_empty {st : SysState} {o : Int} (a b : Str)
    (h : ∀ r ∈ st.temps, (r.oven == o) = false) :
    get_temp_records_in_range st o a b = .ok [] := by
  unfold get_temp_records_in_range
  rw [show (st.temps.filter fun r =>
      r.oven == o && strLt a r.time && strLt r.time b) = [] from ?_]
  · rfl
  · rw [List.filter_eq_nil_iff]
    intro r hr
    rw [h r hr]
    simp

/-- With no temperature rows for the oven, the boundary interpolation
has no neighbours and `calculate_avg_temperature` fails. -/
theorem calc_avg_error_no_temps {st : SysState} {o : Int} {a b : Str}
    {av bv : Int} (h : ∀ r ∈ st.temps, (r.oven == o) = false)
    (ha : parse_time a = .ok av) (hb : parse_time b = .ok bv) :
    calculate_avg_temperature st o a b = .error .queryFailure := by
  unfold calculate_avg_temperature
  rw [ha, hb, get_nearest_empty a true h, get_nearest_empty a false h,
    get_nearest_empty b true h, get_nearest_empty b false h,
    range_empty a b h]
  rfl

theorem avgCols_error {st : SysState} {o : Int} {lt pushT : Str} {e : SysErr}
    (h : calculate_avg_temperature st o lt pushT = .error e) :
    avgCols st o lt pushT = (none, none) := by
  unfold avgCols
  rw [h]

/-- C3: when computing the average temperature fails (in particular
when the oven has no samples at all so no boundary estimate exists),
the cycle row is still persisted with both averages absent and the
duration computed from the parsed instants, and the PUSH call returns
success. -/
theorem C3_avg_failure_degrades :
    (∀ (st : SysState) (o : Int) (c pushT lt : Str) (lv pv : Int) (e : SysErr),
      ovenIds.contains o = true → is_valid_chamber c = true →
      parse_time pushT = .ok pv →
      (st.ops.any fun r => r.oven == o && r.chamber == c &&
        r.time == pushT) = false →
      latestLoadBefore { st with ops := st.ops ++ [⟨o, c, strPUSH, pushT⟩] }
        o c pushT = some lt →
      parse_time lt = .ok lv →
      calculate_avg_temperature
        { st with ops := st.ops ++ [⟨o, c, strPUSH, pushT⟩] } o lt pushT =
        .error e →
      (st.cycles.any fun r => r.oven == o && r.chamber == c &&
        r.push_time == pushT) = false →
      record_operation st o c strPUSH pushT = .ok
        { st with
          ops := st.ops ++ [⟨o, c, strPUSH, pushT⟩],
          cycles := st.cycles ++ [⟨o, c, lt, pushT,
            minutes_to_hhmm (wrap32 ((pv - lv).tdiv 60)), none, none⟩] }) ∧
    (∀ (st : SysState) (o : Int) (a b : Str) (av bv : Int),
      (∀ r ∈ st.temps, (r.oven == o) = false) →
      parse_time a = .ok av → parse_time b = .ok bv →
      calculate_avg_temperature st o a b = .error .queryFailure) := by
  refine ⟨?_, fun st o a b av bv h ha hb => calc_avg_error_no_temps h ha hb⟩
  intro st o c pushT lt lv pv e h1 h2 hp hops hm hl havg hcyc
  rw [record_operation_push h1 h2 hp hops,
    try_calculate_some hm hl hp hcyc, avgCols_error havg]

theorem C3_avg_failure_degrades_witness :
    record_operation ⟨[], [⟨1, "1#".data, strLOAD, "2025-06-18 08:16".data⟩],
        []⟩ 1 "1#".data strPUSH "2025-06-19 12:45".data =
      .ok ⟨[], [⟨1, "1#".data, strLOAD, "2025-06-18 08:16".data⟩,
            ⟨1, "1#".data, strPUSH, "2025-06-19 12:45".data⟩],
        [⟨1, "1#".data, "2025-06-18 08:16".data, "2025-06-19 12:45".data,
          minutes_to_hhmm (wrap32 (((63917556300 : Int) - 63917453760).tdiv 60)),
          none, none⟩]⟩ :=
  C3_avg_failure_degrades.1 _ 1 "1#".data "2025-06-19 12:45".data
    "2025-06-18 08:16".data 63917453760 63917556300 .queryFailure
    (by decide) (by decide) (by decide) (by decide) (by decide) (by decide)
    (by decide) (by decide)

theorem ValidDT_canon (sh : TimeShape) {f : DT} (hv : ValidDT f) :
    ValidDT (canonShape sh f) := by
  obtain ⟨hy, hm1, hm2, hd1, hd2, hh, hmi, hs⟩ := hv
  cases sh with
  | withSeconds => exact ⟨hy, hm1, hm2, hd1, hd2, hh, hmi, hs⟩
  | noSeconds => exact ⟨hy, hm1, hm2, hd1, hd2, hh, hmi, Nat.zero_le 59⟩
  | dateOnly =>
    exact ⟨hy, hm1, hm2, hd1, hd2, Nat.zero_le 23, Nat.zero_le 59,
      Nat.zero_le 59⟩

/-- C1 counterexample: the matcher compares stored time texts as
strings, so a LOAD whose text sorts below the PUSH text but whose
instant is later is matched: the created cycle has its load instant
strictly AFTER its push instant, and the computed duration is negative
(stored as "-8:00"). -/
theorem C1_counterexample :
    record_operation
        { initState with ops :=
          [⟨1, "1#".data, strLOAD, "2025-06-18 09:00".data⟩] }
        1 "1#".data strPUSH "2025-06-18 1:00".data =
      .ok ⟨[], [⟨1, "1#".data, strLOAD, "2025-06-18 09:00".data⟩,
                ⟨1, "1#".data, strPUSH, "2025-06-18 1:00".data⟩],
        [⟨1, "1#".data, "2025-06-18 09:00".data, "2025-06-18 1:00".data,
          "-8:00".data, none, none⟩]⟩ ∧
    parse_time "2025-06-18 09:00".data = .ok 63917456400 ∧
    parse_time "2025-06-18 1:00".data = .ok 63917427600 ∧
    ¬((63917456400 : Int) < 63917427600) ∧
    Int.tdiv ((63917427600 : Int) - 63917456400) 60 < 0 := by
  refine ⟨by decide, by decide, by decide, by decide, by decide⟩

/-- C1 amended: whenever a PUSH finds a matching LOAD and the two
stored texts are zero-padded forms of one and the same strict shape
(`YYYY-MM-DD HH:MM:SS`, `YYYY-MM-DD HH:MM`, or `YYYY-MM-DD`), the
parsed load instant is strictly earlier than the parsed push instant
and the duration in whole minutes is non-negative. -/
theorem C1_cycle_order_uniform_format {st : SysState} {o : Int}
    {c pushT lt : Str} (sh : TimeShape) {f1 f2 : DT}
    (hm : latestLoadBefore st o c pushT = some lt)
    (he1 : lt = renderShape sh f1) (he2 : pushT = renderShape sh f2)
    (hv1 : ValidDT f1) (hv2 : ValidDT f2) :
    ∃ lv pv, parse_time lt = .ok lv ∧ parse_time pushT = .ok pv ∧
      lv < pv ∧ 0 ≤ (pv - lv).tdiv 60 := by
  have hstr : strLt lt pushT = true := latestLoadBefore_strLt hm
  rw [he1, he2] at hstr
  have hlex : DT.lexLt (canonShape sh f1) (canonShape sh f2) :=
    (strLt_render_iff sh hv1 hv2).mp hstr
  have hlt : (canonShape sh f1).instant < (canonShape sh f2).instant :=
    instant_lt_of_lexLt (ValidDT_canon sh hv1) (ValidDT_canon sh hv2) hlex
  refine ⟨(canonShape sh f1).instant, (canonShape sh f2).instant,
    he1 ▸ parse_time_render sh hv1, he2 ▸ parse_time_render sh hv2, hlt, ?_⟩
  exact Int.tdiv_nonneg (by omega) (by omega)

theorem C1_cycle_order_uniform_format_witness :
    ∃ lv pv, parse_time "2025-06-18 08:16".data = .ok lv ∧
      parse_time "2025-06-19 12:45".data = .ok pv ∧
      lv < pv ∧ 0 ≤ (pv - lv).tdiv 60 :=
  @C1_cycle_order_uniform_format
    ⟨[], [⟨1, "1#".data, strLOAD, "2025-06-18 08:16".data⟩], []⟩
    1 "1#".data "2025-06-19 12:45".data "2025-06-18 08:16".data
    .noSeconds ⟨2025, 6, 18, 8, 16, 0⟩ ⟨2025, 6, 19, 12, 45, 0⟩
    (by decide) (by decide) (by decide) (by decide) (by decide)

theorem renderShape_length (sh : TimeShape) (f : DT) :
    (renderShape sh f).length =
      (match sh with
        | .withSeconds => 19
        | .noSeconds => 16
        | .dateOnly => 10) := by
  cases sh <;>
    simp [renderShape, renderS, renderM, renderD, padDigits_length]

/-- C4 counterexample: "2025-6-18" is of none of the three strict
shapes `YYYY-MM-DD HH:MM:SS`, `YYYY-MM-DD HH:MM`, `YYYY-MM-DD` (it is
even of the wrong length for each), yet `parse_time` accepts it:
chrono's `%m` matches the single digit month. -/
theorem C4_counterexample :
    (∀ (sh : TimeShape) (f : DT), "2025-6-18".data ≠ renderShape sh f) ∧
    parse_time "2025-6-18".data = .ok 63917424000 := by
  refine ⟨?_, by decide⟩
  intro sh f he
  have hlen := congrArg List.length he
  rw [renderShape_length] at hlen
  cases sh <;> exact absurd hlen (by decide)

/-- C4 amended: `parse_time` tries the three chrono patterns in strict
priority order — `%Y-%m-%d %H:%M:%S`, then `%Y-%m-%d %H:%M` (seconds
defaulting to 0), then `%Y-%m-%d` (time defaulting to midnight) — the
first pattern that matches the whole input wins, and exactly when all
three fail the invalid-time-format error is returned; chrono's numeric
matching is lenient (1–2 digit fields, whitespace skipping), so texts
outside the strict zero-padded shapes can still parse, while every
strictly-shaped text round-trips to its instant with omitted fields
zero. -/
theorem C4_parse_priority_amended :
    (∀ (s : Str) (v : Int), chronoS s = some v → parse_time s = .ok v) ∧
    (∀ (s : Str) (v : Int), chronoS s = none → chronoM s = some v →
      parse_time s = .ok v) ∧
    (∀ (s : Str) (v : Int), chronoS s = none → chronoM s = none →
      chronoD s = some v → parse_time s = .ok v) ∧
    (∀ s : Str, chronoS s = none → chronoM s = none → chronoD s = none →
      parse_time s = .error .invalidTimeFormat) ∧
    (∀ (sh : TimeShape) (f : DT), ValidDT f →
      parse_time (renderShape sh f) = .ok ((canonShape sh f).instant)) := by
  refine ⟨?_, ?_, ?_, ?_, fun sh f hv => parse_time_render sh hv⟩
  · intro s v h
    unfold parse_time
    rw [h]
  · intro s v h1 h2
    unfold parse_time
    rw [h1, h2]
  · intro s v h1 h2 h3
    unfold parse_time
    rw [h1, h2, h3]
  · intro s h1 h2 h3
    unfold parse_time
    rw [h1, h2, h3]

theorem C4_parse_priority_amended_witness :
    parse_time "2025-06-18 08:16:30".data = .ok 63917453790 ∧
    parse_time "2025-06-18 08:16".data = .ok 63917453760 ∧
    parse_time "2025-06-18".data = .ok 63917424000 ∧
    parse_time "not-a-time".data = .error .invalidTimeFormat ∧
    parse_time (renderShape .dateOnly ⟨2025, 6, 18, 0, 0, 0⟩) =
      .ok ((canonShape .dateOnly ⟨2025, 6, 18, 0, 0, 0⟩).instant) :=
  ⟨C4_parse_priority_amended.1 _ _ (by decide),
   C4_parse_priority_amended.2.1 _ _ (by decide) (by decide),
   C4_parse_priority_amended.2.2.1 _ _ (by decide) (by decide) (by decide),
   C4_parse_priority_amended.2.2.2.1 _ (by decide) (by decide) (by decide),
   C4_parse_priority_amended.2.2.2.2 _ _ (by decide)⟩

/-- Reachability invariant: every cycle row's (oven, chamber, push time)
key is also an operation-row key — true of every state the system
builds, since a cycle is only inserted right after its PUSH row. -/
def CycleOpInv (st : SysState) : Prop :=
  ∀ cyc ∈ st.cycles, ∃ r ∈ st.ops, r.oven = cyc.oven ∧
    r.chamber = cyc.chamber ∧ r.time = cyc.push_time

/-- Reachability invariant: stored operation times parse (they were
validated by `record_operation` on insert). -/
def OpsParse (st : SysState) : Prop :=
  ∀ r ∈ st.ops, (parse_time r.time).isOk = true

/-- C2 counterexample: a LOAD whose *instant* is strictly before the
push instant exists, but its text sorts after the push text (different
accepted formats), so the matcher — which compares texts — creates no
cycle row; the call still succeeds. -/
theorem C2_counterexample :
    record_operation
        { initState with ops :=
          [⟨1, "1#".data, strLOAD, "2025-06-18 1:00".data⟩] }
        1 "1#".data strPUSH "2025-06-18 09:00".data =
      .ok ⟨[], [⟨1, "1#".data, strLOAD, "2025-06-18 1:00".data⟩,
                ⟨1, "1#".data, strPUSH, "2025-06-18 09:00".data⟩], []⟩ ∧
    parse_time "2025-06-18 1:00".data = .ok 63917427600 ∧
    parse_time "2025-06-18 09:00".data = .ok 63917456400 ∧
    (63917427600 : Int) < 63917456400 := by
  refine ⟨by decide, by decide, by decide, by decide⟩

/-- C2 amended: for a PUSH recorded at text `T` for (O, C), a cycle row
is created if and only if some LOAD row for (O, C) has stored text
lexicographically strictly before `T`; the created row's loading time
is the lexicographically greatest such text, and when no such LOAD
exists the call still succeeds and no cycle row is persisted. -/
theorem C2_cycle_iff_text_matched_load (st : SysState) (o : Int)
    (c pushT : Str) (pv : Int) (h1 : ovenIds.contains o = true)
    (h2 : is_valid_chamber c = true) (hp : parse_time pushT = .ok pv)
    (hnew : (st.ops.any fun r => r.oven == o && r.chamber == c &&
      r.time == pushT) = false)
    (hinv : CycleOpInv st) (hops : OpsParse st) :
    (∀ lt, latestLoadBefore st o c pushT = some lt →
      ∃ st' row, record_operation st o c strPUSH pushT = .ok st' ∧
        st'.cycles = st.cycles ++ [row] ∧ row.oven = o ∧ row.chamber = c ∧
        row.loading_time = lt ∧ row.push_time = pushT) ∧
    (latestLoadBefore st o c pushT = none →
      ∃ st', record_operation st o c strPUSH pushT = .ok st' ∧
        st'.cycles = st.cycles) ∧
    (latestLoadBefore st o c pushT = none ↔
      ∀ r ∈ st.ops, ¬(r.oven = o ∧ r.chamber = c ∧ r.op_type = strLOAD ∧
        strLt r.time pushT = true)) ∧
    (∀ lt, latestLoadBefore st o c pushT = some lt →
      (∃ r ∈ st.ops, r.oven = o ∧ r.chamber = c ∧ r.op_type = strLOAD ∧
        r.time = lt ∧ strLt r.time pushT = true) ∧
      ∀ r ∈ st.ops, r.oven = o → r.chamber = c → r.op_type = strLOAD →
        strLt r.time pushT = true → strLt lt r.time = false) := by
  have hll : latestLoadBefore
      { st with ops := st.ops ++ [⟨o, c, strPUSH, pushT⟩] } o c pushT =
      latestLoadBefore st o c pushT :=
    latestLoadBefore_append_push st o c pushT _ rfl
  have hcycfresh : (st.cycles.any fun r => r.oven == o && r.chamber == c &&
      r.push_time == pushT) = false := by
    cases hca : st.cycles.any fun r => r.oven == o && r.chamber == c &&
      r.push_time == pushT with
    | false => rfl
    | true =>
      exfalso
      rw [List.any_eq_true] at hca
      obtain ⟨cyc, hcmem, hckey⟩ := hca
      simp only [Bool.and_eq_true, beq_iff_eq] at hckey
      obtain ⟨r2, hr2mem, hr2o, hr2c, hr2t⟩ := hinv cyc hcmem
      have : (st.ops.any fun r => r.oven == o && r.chamber == c &&
          r.time == pushT) = true := by
        rw [List.any_eq_true]
        refine ⟨r2, hr2mem, ?_⟩
        simp only [Bool.and_eq_true, beq_iff_eq]
        exact ⟨⟨hr2o.trans hckey.1.1, hr2c.trans hckey.1.2⟩,
          hr2t.trans hckey.2⟩
      rw [this] at hnew
      cases hnew
  refine ⟨?_, ?_, latestLoadBefore_none_iff st o c pushT, ?_⟩
  · intro lt hlt
    obtain ⟨r, hrmem, _, _, _, hrtime, _⟩ := latestLoadBefore_mem hlt
    have hok := hops r hrmem
    rw [hrtime] at hok
    rcases hpt : parse_time lt with e | lv
    · rw [hpt] at hok
      cases hok
    · refine ⟨_, _, by
        rw [record_operation_push h1 h2 hp hnew,
          try_calculate_some (hll.trans hlt) hpt hp hcycfresh],
        rfl, rfl, rfl, rfl, rfl⟩
  · intro hnone
    refine ⟨{ st with ops := st.ops ++ [⟨o, c, strPUSH, pushT⟩] }, ?_, rfl⟩
    rw [record_operation_push h1 h2 hp hnew]
    unfold try_calculate_coking_cycle
    rw [hll, hnone]
  · intro lt hlt
    obtain ⟨r, hrmem, hro, hrc, hrop, hrtime, hrlt⟩ := latestLoadBefore_mem hlt
    exact ⟨⟨r, hrmem, hro, hrc, hrop, hrtime, hrlt⟩, latestLoadBefore_ub hlt⟩

theorem C2_cycle_iff_text_matched_load_witness :
    ∃ st' row, record_operation
        ⟨[], [⟨1, "1#".data, strLOAD, "2025-06-18 08:16".data⟩], []⟩
        1 "1#".data strPUSH "2025-06-19 12:45".data = .ok st' ∧
      st'.cycles = [] ++ [row] ∧ row.oven = 1 ∧ row.chamber = "1#".data ∧
      row.loading_time = "2025-06-18 08:16".data ∧
      row.push_time = "2025-06-19 12:45".data :=
  (C2_cycle_iff_text_matched_load
    ⟨[], [⟨1, "1#".data, strLOAD, "2025-06-18 08:16".data⟩], []⟩
    1 "1#".data "2025-06-19 12:45".data 63917556300
    (by decide) (by decide) (by decide) (by decide)
    (fun cyc hc => absurd hc (List.not_mem_nil cyc))
    (by
      intro r hr
      rw [List.mem_singleton] at hr
      subst hr
      decide)).1 "2025-06-18 08:16".data (by decide)

/-! ## Characterisation of the nearest-sample and range queries -/

theorem pickRow_go_some (better : Str → Str → Bool) (l : List TempRow)
    (m : TempRow) :
    ∃ r, List.foldl (fun acc r =>
      match acc with
      | none => some r
      | some m => if better r.time m.time then some r else some m)
      (some m) l = some r := by
  induction l generalizing m with
  | nil => exact ⟨m, rfl⟩
  | cons x xs ih =>
    rw [List.foldl_cons]
    by_cases h : better x.time m.time
    · simpa [h] using ih x
    · simpa [h] using ih m

theorem pickRow_none_iff (better : Str → Str → Bool) (l : List TempRow) :
    pickRow better l = none ↔ l = [] := by
  constructor
  · intro h
    cases l with
    | nil => rfl
    | cons x xs =>
      unfold pickRow at h
      rw [List.foldl_cons] at h
      obtain ⟨r, hr⟩ := pickRow_go_some better xs x
      simp only [hr] at h
      cases h
  · rintro rfl; rfl

theorem pickRow_go_mem (better : Str → Str → Bool) (l : List TempRow) :
    ∀ (m r : TempRow), List.foldl (fun acc r =>
      match acc with
      | none => some r
      | some m => if better r.time m.time then some r else some m)
      (some m) l = some r → r = m ∨ r ∈ l := by
  induction l with
  | nil =>
    intro m r h
    simp only [List.foldl_nil, Option.some.injEq] at h
    exact Or.inl h.symm
  | cons x xs ih =>
    intro m r h
    rw [List.foldl_cons] at h
    by_cases hx : better x.time m.time
    · simp only [hx, if_pos] at h
      rcases ih x r h with rfl | hmem
      · exact Or.inr (List.mem_cons_self _ _)
      · exact Or.inr (List.mem_cons_of_mem x hmem)
    · simp only [hx] at h
      rcases ih m r h with rfl | hmem
      · exact Or.inl rfl
      · exact Or.inr (List.mem_cons_of_mem x hmem)

theorem pickRow_mem {better : Str → Str → Bool} {l : List TempRow}
    {r : TempRow} (h : pickRow better l = some r) : r ∈ l := by
  cases l with
  | nil => cases h
  | cons x xs =>
    unfold pickRow at h
    rw [List.foldl_cons] at h
    rcases pickRow_go_mem better xs x r h with rfl | hmem
    · exact List.mem_cons_self _ _
    · exact List.mem_cons_of_mem x hmem

theorem pickRow_go_best (better : Str → Str → Bool)
    (hirr : ∀ a, better a a = false)
    (hasym : ∀ a b, better a b = true → better b a = false)
    (htrans : ∀ a b c, better a b = false → better b c = false →
      better a c = false)
    (l : List TempRow) :
    ∀ (m r : TempRow), List.foldl (fun acc r =>
      match acc with
      | none => some r
      | some m => if better r.time m.time then some r else some m)
      (some m) l = some r →
      better m.time r.time = false ∧ ∀ x ∈ l, better x.time r.time = false := by
  induction l with
  | nil =>
    intro m r h
    simp only [List.foldl_nil, Option.some.injEq] at h
    subst h
    exact ⟨hirr _, fun x hx => absurd hx (List.not_mem_nil x)⟩
  | cons x xs ih =>
    intro m r h
    rw [List.foldl_cons] at h
    by_cases hx : better x.time m.time
    · simp only [hx, if_pos] at h
      obtain ⟨h1, h2⟩ := ih x r h
      refine ⟨htrans _ _ _ (hasym _ _ hx) h1, ?_⟩
      intro y hy
      rcases List.mem_cons.mp hy with rfl | hmem
      · exact h1
      · exact h2 y hmem
    · simp only [hx] at h
      obtain ⟨h1, h2⟩ := ih m r h
      refine ⟨h1, ?_⟩
      intro y hy
      rcases List.mem_cons.mp hy with rfl | hmem
      · have hxm : better y.time m.time = false := by
          rw [← Bool.not_eq_true]
          exact hx
        exact htrans _ _ _ hxm h1
      · exact h2 y hmem

theorem pickRow_best {better : Str → Str → Bool}
    (hirr : ∀ a, better a a = false)
    (hasym : ∀ a b, better a b = true → better b a = false)
    (htrans : ∀ a b c, better a b = false → better b c = false →
      better a c = false)
    {l : List TempRow} {r : TempRow} (h : pickRow better l = some r) :
    ∀ x ∈ l, better x.time r.time = false := by
  cases l with
  | nil => intro x hx; cases hx
  | cons x xs =>
    unfold pickRow at h
    rw [List.foldl_cons] at h
    obtain ⟨h1, h2⟩ := pickRow_go_best better hirr hasym htrans xs x r h
    intro y hy
    rcases List.mem_cons.mp hy with rfl | hmem
    · exact h1
    · exact h2 y hmem

theorem mem_insertByTime (r x : TempRow) (l : List TempRow) :
    x ∈ insertByTime r l ↔ x = r ∨ x ∈ l := by
  induction l with
  | nil => simp [insertByTime]
  | cons y ys ih =>
    unfold insertByTime
    by_cases h : strLe r.time y.time
    · rw [if_pos h]
      simp only [List.mem_cons]
    · rw [if_neg h]
      simp only [List.mem_cons, ih]
      tauto

theorem mem_sortByTime (x : TempRow) (l : List TempRow) :
    x ∈ sortByTime l ↔ x ∈ l := by
  induction l with
  | nil => simp [sortByTime]
  | cons y ys ih =>
    unfold sortByTime at ih ⊢
    rw [List.foldr_cons, mem_insertByTime, ih, List.mem_cons]

/-- The nearest-before lookup returns a row of the oven whose text is
`≤` the probe text and maximal in the memcmp order among such rows. -/
theorem get_nearest_before_spec {st : SysState} {o : Int} {t : Str}
    {rec : TempRecord} (h : get_nearest_temp_record st o t true = .ok (some rec)) :
    ∃ row ∈ st.temps, row.oven = o ∧ strLe row.time t = true ∧
      parse_time row.time = .ok rec.time ∧
      rec.machine_side = row.machine_side ∧ rec.coke_side = row.coke_side ∧
      ∀ x ∈ st.temps, x.oven = o → strLe x.time t = true →
        strLt row.time x.time = false := by
  unfold get_nearest_temp_record at h
  split at h
  · simp at h
  · rename_i r heq
    split at h
    · cases h
    · rename_i dt hpt
      simp only [Except.ok.injEq, Option.some.injEq] at h
      subst h
      have hmem := pickRow_mem heq
      rw [List.mem_filter] at hmem
      obtain ⟨hrt, hcond⟩ := hmem
      simp only [Bool.and_eq_true, beq_iff_eq, if_pos] at hcond
      refine ⟨r, hrt, hcond.1, hcond.2, hpt, rfl, rfl, ?_⟩
      intro x hx hxo hxle
      have hbest := @pickRow_best (fun a b => strLt b a)
        (fun a => strLt_irrefl a)
        (fun a b hab => strLt_asymm b a hab)
        (fun a b c h1 h2 => strLt_false_trans h1 h2) _ _ heq
      refine hbest x ?_
      rw [List.mem_filter]
      refine ⟨hx, ?_⟩
      simp only [Bool.and_eq_true, beq_iff_eq, if_pos]
      exact ⟨hxo, hxle⟩

/-- The nearest-after lookup returns a row of the oven whose text is
strictly greater than the probe text and minimal in the memcmp order
among such rows. -/
theorem get_nearest_after_spec {st : SysState} {o : Int} {t : Str}
    {rec : TempRecord}
    (h : get_nearest_temp_record st o t false = .ok (some rec)) :
    ∃ row ∈ st.temps, row.oven = o ∧ strLt t row.time = true ∧
      parse_time row.time = .ok rec.time ∧
      rec.machine_side = row.machine_side ∧ rec.coke_side = row.coke_side ∧
      ∀ x ∈ st.temps, x.oven = o → strLt t x.time = true →
        strLt x.time row.time = false := by
  unfold get_nearest_temp_record at h
  split at h
  · simp at h
  · rename_i r heq
    split at h
    · cases h
    · rename_i dt hpt
      simp only [Except.ok.injEq, Option.some.injEq] at h
      subst h
      have hmem := pickRow_mem heq
      rw [List.mem_filter] at hmem
      obtain ⟨hrt, hcond⟩ := hmem
      simp only [Bool.and_eq_true, beq_iff_eq] at hcond
      refine ⟨r, hrt, hcond.1, hcond.2, hpt, rfl, rfl, ?_⟩
      intro x hx hxo hxgt
      have hbest := @pickRow_best (fun a b => strLt a b)
        (fun a => strLt_irrefl a)
        (fun a b hab => strLt_asymm a b hab)
        (fun a b c h1 h2 => strLt_false_trans h2 h1) _ _ heq
      refine hbest x ?_
      rw [List.mem_filter]
      refine ⟨hx, ?_⟩
      simp only [Bool.and_eq_true, beq_iff_eq]
      exact ⟨hxo, hxgt⟩

/-- C10: time values are stored as the caller's verbatim text and the
temporal operations compare stored texts in the memcmp (lexicographic)
order: the temperature uniqueness check is text equality, the
nearest-before / nearest-after lookups pick the maximal `≤`-text /
minimal `>`-text row, the interior range query selects rows by strict
text comparison against both bounds, and the latest-LOAD match picks
the lexicographically greatest LOAD text below the push text.
Consequently the results agree with instant order exactly on texts of a
single uniform zero-padded shape, while in general text order and
instant order disagree, and two accepted texts denoting one instant
("2025-06-18 08:16" and "2025-06-18 08:16:00") are distinct keys that
can both be inserted for one oven. -/
theorem C10_text_keys_and_lex_order :
    (∀ (st : SysState) (o : Int) (t : Str) (mt ct : ℚ) (st' : SysState),
      record_temperature st o t mt ct = .ok st' →
        st' = { st with temps := st.temps ++ [⟨o, t, mt, ct⟩] }) ∧
    (∀ (st : SysState) (o : Int) (t : Str) (mt ct : ℚ) (v : Int),
      ovenIds.contains o = true → parse_time t = .ok v →
      (record_temperature st o t mt ct = .error .duplicateRecord ↔
        (st.temps.any fun r => r.oven == o && r.time == t) = true)) ∧
    (∀ (st : SysState) (o : Int) (t : Str) (rec : TempRecord),
      get_nearest_temp_record st o t true = .ok (some rec) →
        ∃ row ∈ st.temps, row.oven = o ∧ strLe row.time t = true ∧
          parse_time row.time = .ok rec.time ∧
          ∀ x ∈ st.temps, x.oven = o → strLe x.time t = true →
            strLt row.time x.time = false) ∧
    (∀ (st : SysState) (o : Int) (t : Str) (rec : TempRecord),
      get_nearest_temp_record st o t false = .ok (some rec) →
        ∃ row ∈ st.temps, row.oven = o ∧ strLt t row.time = true ∧
          parse_time row.time = .ok rec.time ∧
          ∀ x ∈ st.temps, x.oven = o → strLt t x.time = true →
            strLt x.time row.time = false) ∧
    (∀ (st : SysState) (o : Int) (a b : Str) (row : TempRow),
      row ∈ sortByTime (st.temps.filter fun r =>
        r.oven == o && strLt a r.time && strLt r.time b) ↔
      (row ∈ st.temps ∧ row.oven = o ∧ strLt a row.time = true ∧
        strLt row.time b = true)) ∧
    (∀ (st : SysState) (o : Int) (c pushT lt : Str),
      latestLoadBefore st o c pushT = some lt →
        (∃ r ∈ st.ops, r.oven = o ∧ r.chamber = c ∧ r.op_type = strLOAD ∧
          r.time = lt ∧ strLt r.time pushT = true) ∧
        ∀ r ∈ st.ops, r.oven = o → r.chamber = c → r.op_type = strLOAD →
          strLt r.time pushT = true → strLt lt r.time = false) ∧
    (parse_time "2025-06-18 08:16".data =
        parse_time "2025-06-18 08:16:00".data ∧
      "2025-06-18 08:16".data ≠ "2025-06-18 08:16:00".data ∧
      record_temperature initState 1 "2025-06-18 08:16".data 100 200 =
        .ok ⟨[⟨1, "2025-06-18 08:16".data, 100, 200⟩], [], []⟩ ∧
      record_temperature ⟨[⟨1, "2025-06-18 08:16".data, 100, 200⟩], [], []⟩ 1
          "2025-06-18 08:16:00".data 100 200 =
        .ok ⟨[⟨1, "2025-06-18 08:16".data, 100, 200⟩,
              ⟨1, "2025-06-18 08:16:00".data, 100, 200⟩], [], []⟩) ∧
    (∀ (sh : TimeShape) (f1 f2 : DT), ValidDT f1 → ValidDT f2 →
      (strLt (renderShape sh f1) (renderShape sh f2) = true ↔
        (canonShape sh f1).instant < (canonShape sh f2).instant)) ∧
    (strLt "2025-06-18 09:00".data "2025-06-18 1:00".data = true ∧
      parse_time "2025-06-18 09:00".data = .ok 63917456400 ∧
      parse_time "2025-06-18 1:00".data = .ok 63917427600 ∧
      (63917427600 : Int) < 63917456400) := by
  refine ⟨?_, ?_, ?_, ?_, ?_, ?_,
    ⟨by decide, by decide, by decide, by decide⟩, ?_,
    by decide, by decide, by decide, by decide⟩
  · intro st o t mt ct st' h
    unfold record_temperature at h
    split at h
    · cases h
    · split at h
      · cases h
      · split at h
        · cases h
        · cases h
          rfl
  · intro st o t mt ct v h1 hp
    unfold record_temperature
    rw [if_neg (by rw [h1]; exact fun hx => Bool.noConfusion hx)]
    show (match parse_time t with
      | Except.error e => (Except.error e : Except SysErr SysState)
      | Except.ok _ => _) = _ ↔ _
    rw [hp]
    show ((if st.temps.any fun r => r.oven == o && r.time == t then
        (Except.error SysErr.duplicateRecord : Except SysErr SysState)
      else .ok { st with temps := st.temps ++ [⟨o, t, mt, ct⟩] }) = _) ↔ _
    cases hany : st.temps.any fun r => r.oven == o && r.time == t with
    | true =>
      rw [if_pos rfl]
      simp
    | false =>
      rw [if_neg (fun hx => Bool.noConfusion hx)]
      simp
  · intro st o t rec h
    obtain ⟨row, hmem, ho, hle, hpt, _, _, hub⟩ := get_nearest_before_spec h
    exact ⟨row, hmem, ho, hle, hpt, hub⟩
  · intro st o t rec h
    obtain ⟨row, hmem, ho, hgt, hpt, _, _, hlb⟩ := get_nearest_after_spec h
    exact ⟨row, hmem, ho, hgt, hpt, hlb⟩
  · intro st o a b row
    rw [mem_sortByTime, List.mem_filter]
    simp only [Bool.and_eq_true, beq_iff_eq, and_assoc]
  · intro st o c pushT lt h
    exact ⟨latestLoadBefore_mem h, latestLoadBefore_ub h⟩
  · intro sh f1 f2 hv1 hv2
    constructor
    · intro h
      exact instant_lt_of_lexLt (ValidDT_canon sh hv1) (ValidDT_canon sh hv2)
        ((strLt_render_iff sh hv1 hv2).mp h)
    · intro h
      rcases lexLt_trichotomy (canonShape sh f1) (canonShape sh f2) with
        hl | he | hg
      · exact (strLt_render_iff sh hv1 hv2).mpr hl
      · rw [he] at h
        exact absurd h (lt_irrefl _)
      · have := instant_lt_of_lexLt (ValidDT_canon sh hv2)
          (ValidDT_canon sh hv1) hg
        omega

theorem C10_text_keys_and_lex_order_witness :
    (⟨[⟨1, "2025-06-18 10:00".data, 100, 200⟩], [], []⟩ : SysState) =
      { (initState : SysState) with temps :=
        initState.temps ++ [⟨1, "2025-06-18 10:00".data, 100, 200⟩] } ∧
    (strLt (renderShape .noSeconds ⟨2025, 6, 18, 8, 16, 0⟩)
        (renderShape .noSeconds ⟨2025, 6, 19, 12, 45, 0⟩) = true ↔
      (canonShape .noSeconds ⟨2025, 6, 18, 8, 16, 0⟩).instant <
        (canonShape .noSeconds ⟨2025, 6, 19, 12, 45, 0⟩).instant) :=
  ⟨C10_text_keys_and_lex_order.1 initState 1 "2025-06-18 10:00".data 100 200
      _ (by decide),
   C10_text_keys_and_lex_order.2.2.2.2.2.2.2.1 .noSeconds _ _ (by decide)
      (by decide)⟩
